import Mathlib

/-! Wake-up light: phase-control dimmer firmware (`src/main.c`)

A shallow embedding of the firmware's control engine.  The target is an 8-bit
AVR: `unsigned char` is 8 bits, `unsigned int` is 16 bits and `unsigned long`
is 32 bits.  Machine integers are natural numbers, reduced `% 2^w` wherever
the C arithmetic can wrap.  Hardware inputs (the zero-cross pin, the button
pin) are explicit sample sequences.
-/

namespace WakeUpLight

/-! ## `mul16_h16` (main.c, lines 26-40) -/

/-- The `for (i = 0; i < 16; i++)` loop of `mul16_h16`; the first argument is
the number of iterations left, `a`, `b`, `c` are the C variables.
Body: `c >>= 1; if (a & 0x01) c += b; a >>= 1;` on 16-bit values. -/
def mul16_loop : Nat → Nat → Nat → Nat → Nat
  | 0, _, _, c => c
  | n + 1, a, b, c =>
    let c1 := c >>> 1
    let c2 := if a &&& 0x01 ≠ 0 then (c1 + b) % 65536 else c1
    mul16_loop n (a >>> 1) b c2

/-- The function `unsigned int mul16_h16(unsigned int a, unsigned int b)`. -/
def mul16_h16 (a b : Nat) : Nat :=
  mul16_loop 16 a (b >>> 1) 0

/-- The result of `mul16_h16` with ghost counters: how often the loop body
ran (`iters`), how often `c += b` was executed (`adds`), and the number of
executed statements of the loop body (`steps`: `c >>= 1`, the test of
`a & 0x01`, `c += b` when taken, `a >>= 1`). -/
structure MulSteps where
  result : Nat
  iters : Nat
  adds : Nat
  steps : Nat
  deriving DecidableEq, Repr

/-- The loop of `mul16_h16` with the ghost counters updated. -/
def mul16_loop_steps : Nat → Nat → Nat → MulSteps → MulSteps
  | 0, _, _, s => s
  | n + 1, a, b, s =>
    let c1 := s.result >>> 1
    if a &&& 0x01 ≠ 0 then
      mul16_loop_steps n (a >>> 1) b
        { result := (c1 + b) % 65536, iters := s.iters + 1, adds := s.adds + 1,
          steps := s.steps + 4 }
    else
      mul16_loop_steps n (a >>> 1) b
        { result := c1, iters := s.iters + 1, adds := s.adds, steps := s.steps + 3 }

/-- The step-counting embedding of `mul16_h16`. -/
def mul16_h16_steps (a b : Nat) : MulSteps :=
  mul16_loop_steps 16 a (b >>> 1) { result := 0, iters := 0, adds := 0, steps := 0 }

/-- The number of set bits among the low 16 bits of `a` (for a 16-bit value:
its population count). -/
def popcount16 (a : Nat) : Nat :=
  (Finset.range 16).sum (fun i => a / 2 ^ i % 2)

/-- The loop of `mul16_h16` over unbounded naturals: `c += b` without the
reduction to 16 bits. -/
def mul16_loop_nat : Nat → Nat → Nat → Nat → Nat
  | 0, _, _, c => c
  | n + 1, a, b, c =>
    let c1 := c >>> 1
    let c2 := if a &&& 0x01 ≠ 0 then c1 + b else c1
    mul16_loop_nat n (a >>> 1) b c2

/-- The computation of `mul16_h16` over unbounded naturals. -/
def mul16_h16_nat (a b : Nat) : Nat :=
  mul16_loop_nat 16 a (b >>> 1) 0

/-- The values the accumulator `c` takes at the end of each loop iteration,
computed over unbounded naturals. -/
def mul16_trace : Nat → Nat → Nat → Nat → List Nat
  | 0, _, _, _ => []
  | n + 1, a, b, c =>
    let c1 := c >>> 1
    let c2 := if a &&& 0x01 ≠ 0 then c1 + b else c1
    c2 :: mul16_trace n (a >>> 1) b c2

/-! ## `button_pressed` (main.c, lines 77-86) -/

/-- One call of `button_pressed`: `acc` is the static 8-bit history, `pin` the
value of `PINB & _BV(PIN_BUTTON)` read by this call.  Returns the new history
and the return value `acc == 0x01`. -/
def button_pressed (acc : Nat) (pin : Bool) : Nat × Bool :=
  let acc1 := (acc <<< 1) % 256
  let acc2 := if pin then acc1 ||| 1 else acc1
  (acc2, acc2 == 0x01)

/-- The history register before call `n` (calls are numbered from 0), when
call `k` reads the sample `pins k`; `static unsigned char acc = 0`. -/
def button_acc (pins : Nat → Bool) : Nat → Nat
  | 0 => 0
  | n + 1 => (button_pressed (button_acc pins n) (pins n)).1

/-- The value returned by call `n` of `button_pressed`. -/
def button_result (pins : Nat → Bool) (n : Nat) : Bool :=
  (button_pressed (button_acc pins n) (pins n)).2

/-- Bit `k` of the history before call `n`: the sample of call `n - 1 - k`,
and 0 where that call does not exist. -/
def history_bit (pins : Nat → Bool) (n k : Nat) : Nat :=
  if k < n ∧ pins (n - 1 - k) = true then 1 else 0

/-! ## `cycle` (main.c, lines 96-189) -/

/-- The fire target computed at the start of `cycle` (lines 114-131) from the
static `cycle_len` and the argument `level`, in 16-bit unsigned arithmetic. -/
def cycle_target (cycle_len level : Nat) : Nat :=
  let t1 := mul16_h16 level level
  let t2 := mul16_h16 t1 t1
  let t3 := ((t2 >>> 1) + (level >>> 1)) % 65536
  let t4 := (0xffff + 65536 - t3) % 65536
  let t5 := mul16_h16 ((cycle_len + 65536 - 0x90) % 65536) t4
  if level = 0 then 0xffff else t5

/-- The local state of the phase timing loop (lines 145-171): the debounce
accumulator `io_acc`, the loop counter `count`, and two ghost counters: how
often the `count == target` branch (the triac pulse) was executed, and how
many iterations were run. -/
structure LoopState where
  io_acc : Nat
  count : Nat
  pulses : Nat
  iters : Nat
  deriving DecidableEq, Repr

/-- One iteration of the `while (io_acc != io_tgt)` body; `zc` is the value of
`PINB & _BV(PIN_ZEROCROSS)` read by this iteration. -/
def loop_body (target : Nat) (zc : Bool) (s : LoopState) : LoopState :=
  let acc1 := (s.io_acc <<< 1) % 256
  let acc2 := if zc then acc1 ||| 1 else acc1
  let fire := s.count = target
  let count1 := if fire then (s.count + 15) % 65536 else s.count
  { io_acc := acc2
    count := (count1 + 1) % 65536
    pulses := if fire then s.pulses + 1 else s.pulses
    iters := s.iters + 1 }

/-- The timing loop run on a finite sequence of zero-cross samples: it stops
when the loop condition `io_acc != io_tgt` fails (the loop has exited) or when
the samples are used up (the loop is still running). -/
def timing_loop (io_tgt target : Nat) : List Bool → LoopState → LoopState
  | [], s => s
  | zc :: rest, s =>
    if s.io_acc ≠ io_tgt then timing_loop io_tgt target rest (loop_body target zc s)
    else s

/-- The loop body as the specification words it (section 4.3, step 4): the
triac is pulsed "if `count == target` and the triac has not yet fired this
semicycle"; `fired` is that flag.  Everything else is as in `loop_body`. -/
def spec_loop_body (target : Nat) (zc : Bool) (s : LoopState) (fired : Bool) :
    LoopState × Bool :=
  let acc1 := (s.io_acc <<< 1) % 256
  let acc2 := if zc then acc1 ||| 1 else acc1
  let fire := s.count = target ∧ fired = false
  let count1 := if fire then (s.count + 15) % 65536 else s.count
  ({ io_acc := acc2
     count := (count1 + 1) % 65536
     pulses := if fire then s.pulses + 1 else s.pulses
     iters := s.iters + 1 },
   if fire then true else fired)

/-- The timing loop of the specification, with the flag. -/
def spec_timing_loop (io_tgt target : Nat) : List Bool → LoopState × Bool → LoopState × Bool
  | [], p => p
  | zc :: rest, p =>
    if p.1.io_acc ≠ io_tgt then
      spec_timing_loop io_tgt target rest (spec_loop_body target zc p.1 p.2)
    else p

/-- The start-up shortcut of lines 177-178. -/
def cycle_snap (count cycle_len : Nat) : Nat :=
  if cycle_len = 0xfffb then count else cycle_len

/-- The upward adjustment of lines 182-183 (`cycle_len++`, 16 bits). -/
def cycle_inc (count cycle_len : Nat) : Nat :=
  if count > cycle_len then (cycle_len + 1) % 65536 else cycle_len

/-- The downward adjustment of lines 184-185 (`cycle_len--`, 16 bits). -/
def cycle_dec (count cycle_len : Nat) : Nat :=
  if count < cycle_len then (cycle_len + 65535) % 65536 else cycle_len

/-- The end-of-call update of `cycle_len` (lines 177-185) for a measured
`count`. -/
def cycle_adjust (cycle_len count : Nat) : Nat :=
  cycle_dec count (cycle_inc count (cycle_snap count cycle_len))

/-- The statics of `cycle`: `which` (0x00 or 0xff) and `cycle_len`. -/
structure CycleState where
  which : Nat
  cycle_len : Nat
  deriving DecidableEq, Repr

/-- The initial statics: `which = 0x00`, `cycle_len = 0xffff`. -/
def cycle_init : CycleState := { which := 0x00, cycle_len := 0xffff }

/-- The timing loop of one call `cycle(level)` on the zero-cross samples `zc`:
`count = 0`, `io_acc = ~which`, `io_tgt = which`. -/
def cycle_loop (st : CycleState) (level : Nat) (zc : List Bool) : LoopState :=
  timing_loop st.which (cycle_target st.cycle_len level) zc
    { io_acc := (st.which ^^^ 0xff) % 256, count := 0, pulses := 0, iters := 0 }

/-- One call `cycle(level)`: `none` when the samples `zc` end before the
timing loop exits, otherwise the updated statics.  The busy-wait delays
(`_delay_us`) and the port writes change no program variable; the pulse is
recorded in the ghost counter of the loop state. -/
def cycle (st : CycleState) (level : Nat) (zc : List Bool) : Option CycleState :=
  let l := cycle_loop st level zc
  if l.io_acc = st.which then
    some { which := (st.which ^^^ 0xff) % 256
           cycle_len := cycle_adjust st.cycle_len l.count }
  else none

/-- The static `cycle_len` before call `n` of `cycle` (calls are numbered
from 0), when it is `init` before call 0 and call `k` measures `counts k`. -/
def cycle_len_seq (init : Nat) (counts : Nat → Nat) : Nat → Nat
  | 0 => init
  | n + 1 => cycle_adjust (cycle_len_seq init counts n) (counts n)

/-- Successive calls of `cycle`, each given its level and the zero-cross
samples read by its timing loop; `none` when a call does not return on its
samples. -/
def cycle_calls : CycleState → List (Nat × List Bool) → Option CycleState
  | st, [] => some st
  | st, c :: cs =>
    match cycle st c.1 c.2 with
    | none => none
    | some st1 => cycle_calls st1 cs

/-- The loop state after `j` iterations of the body on the samples `zc`, the
loop condition left aside (iterations beyond the samples do nothing). -/
def loop_after (target : Nat) (zc : List Bool) (s : LoopState) : Nat → LoopState
  | 0 => s
  | j + 1 =>
    match zc[j]? with
    | some z => loop_body target z (loop_after target zc s j)
    | none => loop_after target zc s j

/-- The 8 most recent of the first `j` samples all equal `e`. -/
def debounced (e : Bool) (zc : List Bool) (j : Nat) : Prop :=
  8 ≤ j ∧ ∀ i, i < 8 → zc[j - 1 - i]? = some e

/-- The samples `zc` preceded by 8 samples of the level opposite to `e`: the
contents of `io_acc = ~which` at loop entry, read as a sample history. -/
def padded_samples (e : Bool) (zc : List Bool) (i : Nat) : Bool :=
  if i < 8 then !e else (zc[i - 8]?).getD (!e)

/-! ## `main` (main.c, lines 193-285): the mode sequencer -/

def LVL_MAX : Nat := 0x7fffffff

/-- The macro `LVL_SCALE(x)`, `((x >> 16) << 1)`. -/
def LVL_SCALE (x : Nat) : Nat := (x >>> 16) <<< 1

/-- The macro `LVL_RAMP(x)`, `(LVL_MAX / 100 / x)`, for an integer `x`. -/
def LVL_RAMP (x : Nat) : Nat := LVL_MAX / 100 / x

/-- The loops of `main`, in source order: lines 222, 231, 243, 251, 259, 269
and 277. -/
inductive Mode where
  | RampUp
  | Steady
  | RampDown
  | Off
  | OffIdle
  | On
  | OnIdle
  deriving DecidableEq, Repr

/-- The sequencer state at the top of a loop body: the loop being executed,
the 32-bit `level`, and the history register of `button_pressed`. -/
structure MainState where
  mode : Mode
  level : Nat
  acc : Nat
  deriving DecidableEq, Repr

/-- The argument of the call to `cycle` in the body of the current loop, as
received by the 16-bit parameter. -/
def call_level (s : MainState) : Nat :=
  match s.mode with
  | Mode.RampUp => LVL_SCALE s.level % 65536
  | Mode.Steady => 0xffff
  | Mode.RampDown => LVL_SCALE s.level % 65536
  | Mode.Off => LVL_SCALE s.level % 65536
  | Mode.OffIdle => 0
  | Mode.On => LVL_SCALE s.level % 65536
  | Mode.OnIdle => 0xffff

/-- Arrival at the label `off:`: the loop test of line 251, then `level = 0`
and the idle loop of line 259. -/
def enter_off (level acc : Nat) : MainState :=
  if level ≤ LVL_MAX then { mode := Mode.Off, level := level, acc := acc }
  else { mode := Mode.OffIdle, level := 0, acc := acc }

/-- Arrival at the label `on:`: the loop test of line 269, then
`level = LVL_MAX` and the idle loop of line 277. -/
def enter_on (level acc : Nat) : MainState :=
  if level ≤ LVL_MAX then { mode := Mode.On, level := level, acc := acc }
  else { mode := Mode.OnIdle, level := LVL_MAX, acc := acc }

/-- The loop test of line 243; on exit control falls into `off:`. -/
def enter_rampdown (level acc : Nat) : MainState :=
  if level ≤ LVL_MAX then { mode := Mode.RampDown, level := level, acc := acc }
  else enter_off level acc

/-- The loop test of line 231; on exit the ramp-down starts at `LVL_MAX`. -/
def enter_steady (level acc : Nat) : MainState :=
  if level ≤ LVL_MAX then { mode := Mode.Steady, level := level, acc := acc }
  else enter_rampdown LVL_MAX acc

/-- The loop test of line 222; on exit the steady loop starts at 0. -/
def enter_rampup (level acc : Nat) : MainState :=
  if level ≤ LVL_MAX then { mode := Mode.RampUp, level := level, acc := acc }
  else enter_steady 0 acc

/-- The state after the two synchronisation calls `cycle(0)`: the first
iteration of the ramp-up loop, `level = 0`. -/
def main_init : MainState := enter_rampup 0 0

/-- One loop iteration of `main` after its call to `cycle`: poll the button
(`pin` is the sample this iteration reads; the ramp-down loop does not poll),
then either jump or apply the loop increment and test.  The off-ramp
decrement `level -= LVL_RAMP(0.5)` is a floating-point computation and is the
parameter `ramp_off`. -/
def main_step (ramp_off : Nat → Nat) (s : MainState) (pin : Bool) : MainState :=
  match s.mode with
  | Mode.RampUp =>
    let r := button_pressed s.acc pin
    if r.2 then enter_off s.level r.1
    else enter_rampup ((s.level + LVL_RAMP 1800) % 4294967296) r.1
  | Mode.Steady =>
    let r := button_pressed s.acc pin
    if r.2 then enter_off LVL_MAX r.1
    else enter_steady ((s.level + LVL_RAMP 2700) % 4294967296) r.1
  | Mode.RampDown =>
    enter_rampdown ((s.level + 4294967296 - LVL_RAMP 2) % 4294967296) s.acc
  | Mode.Off =>
    let r := button_pressed s.acc pin
    if r.2 then enter_on s.level r.1
    else enter_off (ramp_off s.level) r.1
  | Mode.OffIdle =>
    let r := button_pressed s.acc pin
    if r.2 then enter_on s.level r.1
    else { mode := Mode.OffIdle, level := s.level, acc := r.1 }
  | Mode.On =>
    let r := button_pressed s.acc pin
    if r.2 then enter_off s.level r.1
    else enter_on ((s.level + LVL_RAMP 1) % 4294967296) r.1
  | Mode.OnIdle =>
    let r := button_pressed s.acc pin
    if r.2 then enter_off s.level r.1
    else { mode := Mode.OnIdle, level := s.level, acc := r.1 }

/-- The sequencer state at the top of loop iteration `k` (counted from 0 over
all loops), when iteration `j` reads the button sample `pins j`. -/
def main_state (ramp_off : Nat → Nat) (pins : Nat → Bool) : Nat → MainState
  | 0 => main_init
  | k + 1 => main_step ramp_off (main_state ramp_off pins k) (pins k)

/-- Whether `button_pressed` returns true in loop iteration `k` of `main`. -/
def main_pressed (ramp_off : Nat → Nat) (pins : Nat → Bool) (k : Nat) : Bool :=
  (button_pressed (main_state ramp_off pins k).acc (pins k)).2

/-- The sequencer state `k` loop iterations after the state `s`, when the
`j`-th of these iterations reads the button sample `pins j`. -/
def main_from (ramp_off : Nat → Nat) (pins : Nat → Bool) (s : MainState) : Nat → MainState
  | 0 => s
  | k + 1 => main_step ramp_off (main_from ramp_off pins s k) (pins k)

/-- Whether `button_pressed` returns true in iteration `k` after the state `s`
(in the ramp-down loop the button is not polled and the value is unused). -/
def main_pressed_from (ramp_off : Nat → Nat) (pins : Nat → Bool) (s : MainState)
    (k : Nat) : Bool :=
  (button_pressed (main_from ramp_off pins s k).acc (pins k)).2

/-- The level passed by call `n` of `cycle` in `main` (calls are numbered from
0): calls 0 and 1 are the synchronisation calls `cycle(0)` of lines 216-217,
call `n + 2` is the call of loop iteration `n`. -/
def main_call_level (ramp_off : Nat → Nat) (pins : Nat → Bool) (n : Nat) : Nat :=
  if n < 2 then 0 else call_level (main_state ramp_off pins (n - 2))

/-! ## `blink` (main.c, lines 48-70) -/

/-- The statics of `blink` (`state`, `count`, both 8 bits) and the LED pin of
`PORTB` (true once `PORTB |= _BV(PIN_LED)` has run, false after
`PORTB &= ~_BV(PIN_LED)`). -/
structure BlinkState where
  state : Nat
  count : Nat
  led : Bool
  deriving DecidableEq, Repr

/-- The initial statics `state = 0`, `count = 0`; the LED pin is low after
reset. -/
def blink_init : BlinkState := { state := 0, count := 0, led := false }

/-- One call `blink(on, off)`; `n_on` and `n_off` are the parameters `on` and
`off`. -/
def blink (n_on n_off : Nat) (s : BlinkState) : BlinkState :=
  let count := (s.count + 1) % 256
  if s.state = 0 ∧ count > n_off ∧ n_on > 0 then
    { state := 1, count := 0, led := true }
  else if s.state = 1 ∧ count > n_on ∧ n_off > 0 then
    { state := 0, count := 0, led := false }
  else
    { state := s.state, count := count, led := s.led }

/-- The statics and the LED after `n` calls `blink(on, off)` with constant
parameters. -/
def blink_run (n_on n_off : Nat) : Nat → BlinkState
  | 0 => blink_init
  | n + 1 => blink n_on n_off (blink_run n_on n_off n)

/-! ## Closed form of the multiplier -/

theorem mul16_loop_closed (n : Nat) :
    ∀ a b c : Nat, b < 32768 → c ≤ 2 * b →
      mul16_loop n a b c = (c + 2 * b * (a % 2 ^ n)) / 2 ^ n := by
  induction n with
  | zero => intro a b c _ _; simp [mul16_loop, Nat.mod_one]
  | succ n ih =>
    intro a b c hb hc
    have hmod : a % 2 ^ (n + 1) = a % 2 + 2 * ((a / 2) % 2 ^ n) := by
      rw [pow_succ', Nat.mod_mul]
    have hdiv : ∀ x : Nat, x / 2 ^ (n + 1) = x / 2 / 2 ^ n := by
      intro x; rw [pow_succ', Nat.div_div_eq_div_mul]
    simp only [mul16_loop, Nat.shiftRight_one, Nat.and_one_is_mod]
    rcases Nat.mod_two_eq_zero_or_one a with h0 | h1
    · have hc2 : c / 2 ≤ 2 * b := by omega
      simp only [h0, ne_eq, not_true_eq_false, if_false]
      rw [ih (a / 2) b (c / 2) hb hc2, hmod, hdiv, h0]
      congr 1
      have : c + 2 * b * (0 + 2 * (a / 2 % 2 ^ n))
          = c + (2 * b * (a / 2 % 2 ^ n)) * 2 := by ring
      rw [this, Nat.add_mul_div_right _ _ (by norm_num : 0 < 2)]
    · have hlt : c / 2 + b < 65536 := by omega
      have hc2 : c / 2 + b ≤ 2 * b := by omega
      simp only [h1, ne_eq, one_ne_zero, not_false_eq_true, if_true,
        Nat.mod_eq_of_lt hlt]
      rw [ih (a / 2) b (c / 2 + b) hb hc2, hmod, hdiv, h1]
      congr 1
      have : c + 2 * b * (1 + 2 * (a / 2 % 2 ^ n))
          = c + (b + 2 * b * (a / 2 % 2 ^ n)) * 2 := by ring
      rw [this, Nat.add_mul_div_right _ _ (by norm_num : 0 < 2)]
      ring

/-- Closed form: the result is the exact high word of `a * (b - b % 2)`. -/
theorem mul16_h16_closed (a b : Nat) (ha : a < 65536) (hb : b < 65536) :
    mul16_h16 a b = a * (2 * (b / 2)) / 65536 := by
  unfold mul16_h16
  rw [Nat.shiftRight_one, mul16_loop_closed 16 a (b / 2) 0 (by omega) (by omega)]
  have h16 : (2 : Nat) ^ 16 = 65536 := by norm_num
  rw [h16, Nat.mod_eq_of_lt ha, Nat.zero_add, Nat.mul_comm]

theorem mul16_h16_le_true (a b : Nat) (ha : a < 65536) (hb : b < 65536) :
    mul16_h16 a b ≤ a * b / 65536 := by
  rw [mul16_h16_closed a b ha hb]
  exact Nat.div_le_div_right (Nat.mul_le_mul_left a (by omega))

theorem mul16_h16_lt (a b : Nat) (ha : a < 65536) (hb : b < 65536) :
    mul16_h16 a b < 65536 := by
  have h1 := mul16_h16_le_true a b ha hb
  have h2 : a * b < 65536 * 65536 := Nat.mul_lt_mul'' ha hb
  have h3 : a * b / 65536 < 65536 := Nat.div_lt_of_lt_mul h2
  omega

theorem mul16_h16_mono (a b a' b' : Nat) (ha' : a' < 65536) (hb' : b' < 65536)
    (hab : a ≤ a') (hbb : b ≤ b') : mul16_h16 a b ≤ mul16_h16 a' b' := by
  rw [mul16_h16_closed a b (by omega) (by omega), mul16_h16_closed a' b' ha' hb']
  exact Nat.div_le_div_right (Nat.mul_le_mul hab (by omega))

/-! ## C1: error bound of the multiplier -/

/-- C1: for all 16-bit `a`, `b`, with `T = a * b / 65536` the true high word,
`T - 1 ≤ mul16_h16 a b ≤ T`: the result is never above the true value and
never more than 1 below it. -/
theorem mul16_h16_error_bound (a b : Nat) (ha : a < 65536) (hb : b < 65536) :
    a * b / 65536 - 1 ≤ mul16_h16 a b ∧ mul16_h16 a b ≤ a * b / 65536 := by
  refine ⟨?_, mul16_h16_le_true a b ha hb⟩
  rw [mul16_h16_closed a b ha hb]
  have hsplit : a * b = a * (2 * (b / 2)) + a * (b % 2) := by
    rw [← Nat.mul_add, Nat.div_add_mod]
  have hle : a * b ≤ a * (2 * (b / 2)) + 65536 := by
    have : a * (b % 2) ≤ 65536 * 1 := Nat.mul_le_mul (by omega) (by omega)
    omega
  have hdiv : a * b / 65536 ≤ (a * (2 * (b / 2)) + 65536) / 65536 :=
    Nat.div_le_div_right hle
  rw [Nat.add_div_right _ (by norm_num : 0 < 65536)] at hdiv
  omega

theorem mul16_h16_error_bound_witness :
    (65535 : Nat) < 65536 ∧ (65535 : Nat) < 65536 ∧
    (65535 * 65535 / 65536 - 1 ≤ mul16_h16 65535 65535 ∧
      mul16_h16 65535 65535 ≤ 65535 * 65535 / 65536) :=
  ⟨by decide, by decide, mul16_h16_error_bound 65535 65535 (by decide) (by decide)⟩

/-! ## C2: how often the multiplier is off by one -/

/-- Where the result differs from the true high word, `b` is odd, `a` is not 0
and the low word of the exact product is below `a`. -/
theorem mul16_h16_differs (a b : Nat) (ha : a < 65536) (hb : b < 65536)
    (h : mul16_h16 a b ≠ a * b / 65536) :
    b % 2 = 1 ∧ 0 < a ∧ a * b % 65536 < a := by
  rw [mul16_h16_closed a b ha hb] at h
  have hsplit : a * b = a * (2 * (b / 2)) + a * (b % 2) := by
    rw [← Nat.mul_add, Nat.div_add_mod]
  rcases Nat.mod_two_eq_zero_or_one b with h0 | h1
  · rw [h0, Nat.mul_zero, Nat.add_zero] at hsplit
    rw [← hsplit] at h
    exact absurd rfl h
  · rw [h1, Nat.mul_one] at hsplit
    generalize a * (2 * (b / 2)) = x at h hsplit
    generalize a * b = y at h hsplit
    omega

/-- The pairs differing from the true value are disjoint from their mirror
images under `a ↦ 65536 - a`. -/
theorem mul16_h16_differs_mirror (a b : Nat) (ha : a < 65536) (hb : b < 65536)
    (h : mul16_h16 a b ≠ a * b / 65536)
    (h' : mul16_h16 (65536 - a) b ≠ (65536 - a) * b / 65536) : False := by
  obtain ⟨hodd, hpos, hlt⟩ := mul16_h16_differs a b ha hb h
  obtain ⟨_, _, hlt'⟩ := mul16_h16_differs (65536 - a) b (by omega) hb h'
  have hsum : a * b + (65536 - a) * b = 65536 * b := by
    rw [← Nat.add_mul]; congr 1; omega
  have hzero : a * b % 65536 = 0 := by
    generalize a * b = y at hlt hsum
    generalize (65536 - a) * b = y' at hlt' hsum
    omega
  have hcop : Nat.Coprime (2 ^ 16) b :=
    Nat.Coprime.pow_left 16 (Nat.coprime_two_left.mpr (Nat.odd_iff.mpr hodd))
  have hdvd : 2 ^ 16 ∣ a :=
    hcop.dvd_of_dvd_mul_right (by
      rw [show (2 : Nat) ^ 16 = 65536 by norm_num]
      exact Nat.dvd_of_mod_eq_zero hzero)
  have := Nat.le_of_dvd hpos hdvd
  norm_num at this
  omega

theorem card_odd_16bit :
    ((Finset.range 65536).filter (fun b => b % 2 = 1)).card ≤ 32768 := by
  have h := Finset.card_le_card_of_injOn (s := (Finset.range 65536).filter (fun b => b % 2 = 1))
    (t := Finset.range 32768) (fun b => b / 2)
    (by
      intro b hb
      simp only [Finset.mem_filter, Finset.mem_range] at hb ⊢
      omega)
    (by
      intro x hx y hy hxy
      simp only [Finset.coe_filter, Finset.mem_range, Set.mem_setOf_eq] at hx hy
      simp only at hxy
      omega)
  simpa using h

/-- A set that an injective map sends into a superset, off itself, is at most
half of the superset (`d` and `e` describe the members of `D` and `P`). -/
theorem card_le_half_of_mirror (D P : Finset (Nat × Nat)) (φ : Nat × Nat → Nat × Nat)
    (d e : Nat × Nat → Prop) (hD : ∀ p, p ∈ D ↔ d p) (hP : ∀ p, p ∈ P ↔ e p)
    (hsub : ∀ p, d p → e p) (hmaps : ∀ p, d p → e (φ p))
    (hoff : ∀ p, d p → ¬ d (φ p))
    (hinj : ∀ p q, d p → d q → φ p = φ q → p = q) : 2 * D.card ≤ P.card := by
  have hsubD : D ⊆ P := fun p hp => (hP p).mpr (hsub p ((hD p).mp hp))
  have hsubI : D.image φ ⊆ P := by
    intro q hq
    obtain ⟨p, hp, rfl⟩ := Finset.mem_image.mp hq
    exact (hP _).mpr (hmaps p ((hD p).mp hp))
  have hdisj : Disjoint D (D.image φ) := by
    rw [Finset.disjoint_left]
    intro q hq hq'
    obtain ⟨p, hp, rfl⟩ := Finset.mem_image.mp hq'
    exact hoff p ((hD p).mp hp) ((hD _).mp hq)
  have hcardI : (D.image φ).card = D.card :=
    Finset.card_image_of_injOn (fun p hp q hq hpq =>
      hinj p q ((hD p).mp (Finset.mem_coe.mp hp)) ((hD q).mp (Finset.mem_coe.mp hq)) hpq)
  have hunion : (D ∪ D.image φ).card = D.card + (D.image φ).card :=
    Finset.card_union_of_disjoint hdisj
  have hle : (D ∪ D.image φ).card ≤ P.card :=
    Finset.card_le_card (Finset.union_subset hsubD hsubI)
  omega

/-- C2: among the 2^32 pairs of 16-bit values, at most 2^30 (25%) give a
result different from the true high word `a * b / 65536`. -/
theorem mul16_h16_differs_card :
    ((Finset.range 65536 ×ˢ Finset.range 65536).filter
      (fun p => mul16_h16 p.1 p.2 ≠ p.1 * p.2 / 65536)).card ≤ 2 ^ 30 := by
  have h := card_le_half_of_mirror
    ((Finset.range 65536 ×ˢ Finset.range 65536).filter
      (fun p => mul16_h16 p.1 p.2 ≠ p.1 * p.2 / 65536))
    (Finset.range 65536 ×ˢ (Finset.range 65536).filter (fun b => b % 2 = 1))
    (fun p => (65536 - p.1, p.2))
    (fun p => (p.1 < 65536 ∧ p.2 < 65536) ∧ mul16_h16 p.1 p.2 ≠ p.1 * p.2 / 65536)
    (fun p => p.1 < 65536 ∧ p.2 < 65536 ∧ p.2 % 2 = 1)
    (by
      intro p
      simp only [Finset.mem_filter, Finset.mem_product, Finset.mem_range])
    (by
      intro p
      simp only [Finset.mem_filter, Finset.mem_product, Finset.mem_range])
    (by
      intro p hp
      exact ⟨hp.1.1, hp.1.2, (mul16_h16_differs p.1 p.2 hp.1.1 hp.1.2 hp.2).1⟩)
    (by
      intro p hp
      have hd := mul16_h16_differs p.1 p.2 hp.1.1 hp.1.2 hp.2
      exact ⟨by have := hd.2.1; show 65536 - p.1 < 65536; omega, hp.1.2, hd.1⟩)
    (by
      intro p hp hq
      exact mul16_h16_differs_mirror p.1 p.2 hp.1.1 hp.1.2 hp.2 hq.2)
    (by
      intro p q hp hq hpq
      simp only [Prod.mk.injEq] at hpq
      have h1 := hp.1.1
      have h2 := hq.1.1
      exact Prod.ext (by omega) hpq.2)
  have hPcard : (Finset.range 65536 ×ˢ
      (Finset.range 65536).filter (fun b => b % 2 = 1)).card ≤ 65536 * 32768 := by
    rw [Finset.card_product, Finset.card_range]
    exact Nat.mul_le_mul_left _ card_odd_16bit
  have h30 : (2 : Nat) ^ 30 = 1073741824 := by norm_num
  omega

/-! ## C3: the fire target falls as the level rises -/

/-- The blend of lines 114-116, `(t >> 1) + (level >> 1)` after two squarings,
before the inversion: it does not wrap and is monotone in the level. -/
theorem blend_mono (l1 l2 : Nat) (h12 : l1 ≤ l2) (h2 : l2 < 65536) :
    ((mul16_h16 (mul16_h16 l1 l1) (mul16_h16 l1 l1) >>> 1) + (l1 >>> 1)) % 65536
      ≤ ((mul16_h16 (mul16_h16 l2 l2) (mul16_h16 l2 l2) >>> 1) + (l2 >>> 1)) % 65536
    ∧ ((mul16_h16 (mul16_h16 l2 l2) (mul16_h16 l2 l2) >>> 1) + (l2 >>> 1)) % 65536
      < 65535 := by
  have ha2 := mul16_h16_lt l2 l2 h2 h2
  have hm1 := mul16_h16_mono l1 l1 l2 l2 h2 h2 h12 h12
  have hb2 := mul16_h16_lt _ _ ha2 ha2
  have hb1 := mul16_h16_lt (mul16_h16 l1 l1) (mul16_h16 l1 l1) (by omega) (by omega)
  have hm2 := mul16_h16_mono _ _ _ _ ha2 ha2 hm1 hm1
  simp only [Nat.shiftRight_one]
  generalize mul16_h16 (mul16_h16 l1 l1) (mul16_h16 l1 l1) = u1 at hb1 hm2
  generalize mul16_h16 (mul16_h16 l2 l2) (mul16_h16 l2 l2) = u2 at hb2 hm2
  omega

/-- C3: for every 16-bit `cycle_len` (also below 0x90, where
`cycle_len - 0x90` wraps) the fire target computed by `cycle` is non-increasing
in the level: `l1 ≤ l2 ≤ 0xffff` gives `target l2 ≤ target l1`. -/
theorem cycle_target_antitone (cycle_len l1 l2 : Nat) (_hc : cycle_len < 65536)
    (h12 : l1 ≤ l2) (h2 : l2 ≤ 0xffff) :
    cycle_target cycle_len l2 ≤ cycle_target cycle_len l1 := by
  have h2' : l2 < 65536 := by omega
  have hk : (cycle_len + 65536 - 0x90) % 65536 < 65536 := Nat.mod_lt _ (by norm_num)
  obtain ⟨hmono, hlt2⟩ := blend_mono l1 l2 h12 h2'
  simp only [cycle_target]
  generalize ((mul16_h16 (mul16_h16 l1 l1) (mul16_h16 l1 l1) >>> 1) + (l1 >>> 1)) % 65536
    = v1 at hmono ⊢
  generalize ((mul16_h16 (mul16_h16 l2 l2) (mul16_h16 l2 l2) >>> 1) + (l2 >>> 1)) % 65536
    = v2 at hmono hlt2 ⊢
  have h4 : (0xffff + 65536 - v2) % 65536 ≤ (0xffff + 65536 - v1) % 65536 := by omega
  have h4lt : (0xffff + 65536 - v1) % 65536 < 65536 := Nat.mod_lt _ (by norm_num)
  have h4lt2 : (0xffff + 65536 - v2) % 65536 < 65536 := Nat.mod_lt _ (by norm_num)
  have ht2 := mul16_h16_lt _ _ hk h4lt2
  have hm := mul16_h16_mono _ _ _ _ hk h4lt (le_refl ((cycle_len + 65536 - 0x90) % 65536)) h4
  by_cases hz1 : l1 = 0
  · by_cases hz2 : l2 = 0
    · simp [hz1, hz2]
    · simp only [hz1, hz2, if_true, if_false]
      omega
  · have hz2 : l2 ≠ 0 := by omega
    simp only [hz1, hz2, if_false]
    exact hm

theorem cycle_target_antitone_witness :
    (100 : Nat) < 65536 ∧ (0 : Nat) ≤ 65535 ∧ (65535 : Nat) ≤ 0xffff ∧
    cycle_target 100 65535 ≤ cycle_target 100 0 :=
  ⟨by decide, by decide, by decide,
    cycle_target_antitone 100 0 65535 (by decide) (by decide) (by decide)⟩

/-! ## C4: level 0 and the triac pulse -/

theorem cycle_target_zero (cycle_len : Nat) : cycle_target cycle_len 0 = 0xffff := by
  simp [cycle_target]

/-- While the zero-cross input reads 1 and the counter is below the target
0xffff, the loop waiting for the pattern 0x00 only counts. -/
theorem timing_loop_high (n : Nat) :
    ∀ (c i : Nat) (rest : List Bool), c + n ≤ 65535 →
      timing_loop 0 0xffff (List.replicate n true ++ rest)
          { io_acc := 255, count := c, pulses := 0, iters := i }
        = timing_loop 0 0xffff rest
          { io_acc := 255, count := c + n, pulses := 0, iters := i + n } := by
  induction n with
  | zero => intro c i rest _; simp
  | succ n ih =>
    intro c i rest h
    have hc : c ≠ 65535 := by omega
    have hc1 : (c + 1) % 65536 = c + 1 := Nat.mod_eq_of_lt (by omega)
    have hbody : loop_body 0xffff true { io_acc := 255, count := c, pulses := 0, iters := i }
        = { io_acc := 255, count := c + 1, pulses := 0, iters := i + 1 } := by
      simp [loop_body, hc, hc1]
    rw [List.replicate_succ, List.cons_append, timing_loop]
    simp only [ne_eq, show (255 : Nat) ≠ 0 by decide, not_false_eq_true, if_true, hbody]
    rw [ih (c + 1) (i + 1) rest (by omega)]
    congr 2 <;> omega

/-- C4, as stated, fails: from the initial statics, with the zero-cross input
held at 1 for 65536 loop iterations and then at 0 for 8, the call `cycle(0)`
executes the pulse branch once (when `count` reaches 0xffff) and then returns. -/
theorem cycle_zero_pulses_after_wrap :
    (cycle_loop cycle_init 0
        (List.replicate 65536 true ++ List.replicate 8 false)).pulses = 1 ∧
    cycle cycle_init 0 (List.replicate 65536 true ++ List.replicate 8 false)
      = some { which := 255, cycle_len := 0xfffe } := by
  have hrun : cycle_loop cycle_init 0
      (List.replicate 65536 true ++ List.replicate 8 false)
      = { io_acc := 0, count := 23, pulses := 1, iters := 65544 } := by
    have hsplit : List.replicate 65536 true ++ List.replicate 8 false
        = List.replicate 65535 true ++ (true :: List.replicate 8 false) := by
      rw [show (65536 : Nat) = 65535 + 1 by norm_num, List.replicate_succ',
        List.append_assoc]
      rfl
    have hstart : (cycle_init.which ^^^ 0xff) % 256 = 255 := by decide
    have hwhich : cycle_init.which = 0 := rfl
    unfold cycle_loop
    rw [cycle_target_zero, hsplit, hstart, hwhich,
      timing_loop_high 65535 0 0 _ (by norm_num)]
    decide
  refine ⟨by rw [hrun], ?_⟩
  unfold cycle
  rw [hrun]
  decide

/-- The timing loop with target 0xffff keeps, up to 65535 iterations,
`pulses = 0` and `count = iters`. -/
theorem timing_loop_no_pulse (io_tgt : Nat) (zc : List Bool) :
    ∀ s : LoopState,
      (s.iters ≤ 65535 → s.pulses = 0 ∧ s.count = s.iters) →
      (timing_loop io_tgt 0xffff zc s).iters ≤ 65535 →
      (timing_loop io_tgt 0xffff zc s).pulses = 0 ∧
        (timing_loop io_tgt 0xffff zc s).count = (timing_loop io_tgt 0xffff zc s).iters := by
  induction zc with
  | nil => intro s hs h; exact hs h
  | cons z rest ih =>
    intro s hs
    rw [timing_loop]
    by_cases hexit : s.io_acc = io_tgt
    · simp only [hexit, ne_eq, not_true_eq_false, if_false]
      exact hs
    · simp only [hexit, ne_eq, not_false_eq_true, if_true]
      apply ih
      intro hb
      have hb' : s.iters + 1 ≤ 65535 := hb
      obtain ⟨hp, hcnt⟩ := hs (by omega)
      have hne : s.count ≠ 65535 := by omega
      have hmod : (s.count + 1) % 65536 = s.count + 1 := Nat.mod_eq_of_lt (by omega)
      simp only [loop_body, hne, if_false, hmod]
      exact ⟨hp, by omega⟩

/-- C4 (amended): for every `which`, every `cycle_len` and every sequence of
zero-cross samples, a call `cycle(0)` has not pulsed the triac as long as its
timing loop has run at most 65535 iterations; in particular a call whose loop
exits within 65535 iterations never pulses the triac. -/
theorem cycle_zero_no_pulse (st : CycleState) (zc : List Bool)
    (h : (cycle_loop st 0 zc).iters ≤ 65535) :
    (cycle_loop st 0 zc).pulses = 0 := by
  unfold cycle_loop at h ⊢
  rw [cycle_target_zero] at h ⊢
  exact (timing_loop_no_pulse st.which zc _ (fun _ => ⟨rfl, rfl⟩) h).1

theorem cycle_zero_no_pulse_witness :
    (cycle_loop cycle_init 0
        (List.replicate 20 true ++ List.replicate 8 false)).iters ≤ 65535 ∧
    (cycle_loop cycle_init 0
        (List.replicate 20 true ++ List.replicate 8 false)).pulses = 0 :=
  ⟨by decide, cycle_zero_no_pulse cycle_init _ (by decide)⟩

/-! ## C5, C6: the button debouncer -/

theorem history_bit_le (pins : Nat → Bool) (n k : Nat) : history_bit pins n k ≤ 1 := by
  unfold history_bit; split <;> omega

theorem history_bit_succ (pins : Nat → Bool) (n k : Nat) :
    history_bit pins (n + 1) (k + 1) = history_bit pins n k := by
  unfold history_bit
  have h1 : k + 1 < n + 1 ↔ k < n := by omega
  have h2 : n + 1 - 1 - (k + 1) = n - 1 - k := by omega
  simp only [h1, h2]

theorem history_bit_zero (pins : Nat → Bool) (n : Nat) :
    history_bit pins (n + 1) 0 = if pins n = true then 1 else 0 := by
  unfold history_bit
  simp

set_option maxRecDepth 100000 in
theorem shift_or_one : ∀ x : Nat, x < 256 → ((x <<< 1) % 256) ||| 1 = (x <<< 1) % 256 + 1 := by
  decide

/-- The history register holds the last 8 samples, the newest in bit 0. -/
theorem button_acc_bits (pins : Nat → Bool) (n : Nat) :
    button_acc pins n =
      history_bit pins n 0 + 2 * history_bit pins n 1 + 4 * history_bit pins n 2
      + 8 * history_bit pins n 3 + 16 * history_bit pins n 4
      + 32 * history_bit pins n 5 + 64 * history_bit pins n 6
      + 128 * history_bit pins n 7 := by
  induction n with
  | zero => simp [button_acc, history_bit]
  | succ n ih =>
    have hb : ∀ k, history_bit pins n k ≤ 1 := history_bit_le pins n
    have h0 := hb 0; have h1 := hb 1; have h2 := hb 2; have h3 := hb 3
    have h4 := hb 4; have h5 := hb 5; have h6 := hb 6; have h7 := hb 7
    have hlt : button_acc pins n < 256 := by omega
    have hor := shift_or_one (button_acc pins n) hlt
    simp only [history_bit_succ, history_bit_zero]
    rw [button_acc]
    simp only [button_pressed]
    cases pins n
    · simp only [Bool.false_eq_true, if_false, Nat.shiftLeft_eq]
      omega
    · simp only [if_true, hor]
      simp only [Nat.shiftLeft_eq]
      omega

theorem button_result_iff_acc (pins : Nat → Bool) (n : Nat) :
    button_result pins n = true ↔ button_acc pins (n + 1) = 0x01 := by
  simp [button_result, button_acc, button_pressed]

theorem button_result_iff_samples (pins : Nat → Bool) (n : Nat) :
    button_result pins n = true ↔
      (pins n = true ∧ ∀ k, 1 ≤ k → k ≤ 7 → k ≤ n → pins (n - k) = false) := by
  rw [button_result_iff_acc, button_acc_bits pins (n + 1)]
  have hb : ∀ k, history_bit pins (n + 1) k ≤ 1 := history_bit_le pins (n + 1)
  have hbit : ∀ k, history_bit pins (n + 1) (k + 1) = 0 ↔
      (k + 1 ≤ n → pins (n - (k + 1)) = false) := by
    intro k
    unfold history_bit
    have h2 : n + 1 - 1 - (k + 1) = n - (k + 1) := by omega
    rw [h2]
    by_cases hk : k + 1 ≤ n
    · have hk' : k + 1 < n + 1 := by omega
      cases hp : pins (n - (k + 1)) <;> simp [hk, hk']
    · have hk' : ¬ (k + 1 < n + 1) := by omega
      simp [hk, hk']
  have h0 := hb 0; have h1 := hb 1; have h2 := hb 2; have h3 := hb 3
  have h4 := hb 4; have h5 := hb 5; have h6 := hb 6; have h7 := hb 7
  have e0 := history_bit_zero pins n
  constructor
  · intro h
    have z1 : history_bit pins (n + 1) 1 = 0 := by omega
    have z2 : history_bit pins (n + 1) 2 = 0 := by omega
    have z3 : history_bit pins (n + 1) 3 = 0 := by omega
    have z4 : history_bit pins (n + 1) 4 = 0 := by omega
    have z5 : history_bit pins (n + 1) 5 = 0 := by omega
    have z6 : history_bit pins (n + 1) 6 = 0 := by omega
    have z7 : history_bit pins (n + 1) 7 = 0 := by omega
    have o0 : history_bit pins (n + 1) 0 = 1 := by omega
    refine ⟨?_, ?_⟩
    · rw [e0] at o0
      by_contra hp
      simp [hp] at o0
    · intro k hk1 hk7 hkn
      obtain ⟨j, rfl⟩ : ∃ j, k = j + 1 := ⟨k - 1, by omega⟩
      have hj : j < 7 := by omega
      interval_cases j
      · exact (hbit 0).mp z1 hkn
      · exact (hbit 1).mp z2 hkn
      · exact (hbit 2).mp z3 hkn
      · exact (hbit 3).mp z4 hkn
      · exact (hbit 4).mp z5 hkn
      · exact (hbit 5).mp z6 hkn
      · exact (hbit 6).mp z7 hkn
  · rintro ⟨hp, hprev⟩
    have o0 : history_bit pins (n + 1) 0 = 1 := by rw [e0]; simp [hp]
    have z : ∀ j, j < 7 → history_bit pins (n + 1) (j + 1) = 0 := by
      intro j hj
      exact (hbit j).mpr (fun hkn => hprev (j + 1) (by omega) (by omega) hkn)
    have z1 : history_bit pins (n + 1) 1 = 0 := z 0 (by omega)
    have z2 : history_bit pins (n + 1) 2 = 0 := z 1 (by omega)
    have z3 : history_bit pins (n + 1) 3 = 0 := z 2 (by omega)
    have z4 : history_bit pins (n + 1) 4 = 0 := z 3 (by omega)
    have z5 : history_bit pins (n + 1) 5 = 0 := z 4 (by omega)
    have z6 : history_bit pins (n + 1) 6 = 0 := z 5 (by omega)
    have z7 : history_bit pins (n + 1) 7 = 0 := z 6 (by omega)
    omega

/-- C5: from the initial history 0, call `n` of `button_pressed` returns true
iff the button is pressed at call `n` and was not pressed at each of the 7
previous calls (calls that do not exist count as not pressed); equivalently
iff the history register then equals exactly 0x01. -/
theorem button_pressed_iff (pins : Nat → Bool) (n : Nat) :
    (button_result pins n = true ↔
      (pins n = true ∧ ∀ k, 1 ≤ k → k ≤ 7 → k ≤ n → pins (n - k) = false)) ∧
    (button_result pins n = true ↔ button_acc pins (n + 1) = 0x01) :=
  ⟨button_result_iff_samples pins n, button_result_iff_acc pins n⟩

/-- A call that follows a pressed sample at distance 1 to 7 returns false. -/
theorem button_result_false_after (pins : Nat → Bool) (m j : Nat)
    (hj1 : 1 ≤ j) (hj7 : j ≤ 7) (hp : pins m = true) :
    button_result pins (m + j) = false := by
  cases hr : button_result pins (m + j) with
  | false => rfl
  | true =>
    have h := ((button_result_iff_samples pins (m + j)).mp hr).2 j hj1 hj7 (by omega)
    rw [Nat.add_sub_cancel, hp] at h
    exact absurd h (by decide)

/-- C6: `button_pressed` is one-shot.  If call `n` returns true then calls
`n + 1` to `n + 7` return false, any later true result is at least 8 calls
away, and while the samples from call `n` on stay pressed no later call of
that run returns true. -/
theorem button_pressed_one_shot (pins : Nat → Bool) (n : Nat)
    (h : button_result pins n = true) :
    (∀ j, 1 ≤ j → j ≤ 7 → button_result pins (n + j) = false) ∧
    (∀ m, n < m → button_result pins m = true → n + 8 ≤ m) ∧
    (∀ m, (∀ i, n ≤ i → i ≤ m → pins i = true) →
      ∀ k, n < k → k ≤ m → button_result pins k = false) := by
  have hp : pins n = true := ((button_result_iff_samples pins n).mp h).1
  refine ⟨fun j hj1 hj7 => button_result_false_after pins n j hj1 hj7 hp, ?_, ?_⟩
  · intro m hnm hm
    by_contra hlt
    have hf := button_result_false_after pins n (m - n) (by omega) (by omega) hp
    rw [show n + (m - n) = m by omega, hm] at hf
    exact absurd hf (by decide)
  · intro m hrun k hnk hkm
    have hprev : pins (k - 1) = true := hrun (k - 1) (by omega) (by omega)
    have hf := button_result_false_after pins (k - 1) 1 (by omega) (by omega) hprev
    rwa [show k - 1 + 1 = k by omega] at hf

theorem button_pressed_one_shot_witness :
    button_result (fun i => decide (2 ≤ i)) 2 = true ∧
    ((∀ j, 1 ≤ j → j ≤ 7 → button_result (fun i => decide (2 ≤ i)) (2 + j) = false) ∧
    (∀ m, 2 < m → button_result (fun i => decide (2 ≤ i)) m = true → 2 + 8 ≤ m) ∧
    (∀ m, (∀ i, 2 ≤ i → i ≤ m → (fun i => decide (2 ≤ i)) i = true) →
      ∀ k, 2 < k → k ≤ m → button_result (fun i => decide (2 ≤ i)) k = false)) :=
  ⟨by decide, button_pressed_one_shot (fun i => decide (2 ≤ i)) 2 (by decide)⟩

/-! ## C7, C8, C9: tracking of the cycle length -/

/-- C7: for every measured `count` and every `cycle_len` other than the
calibration trigger 0xfffb, the end-of-call update moves `cycle_len` by at
most 1, toward `count`: up by 1 if `count` is larger, down by 1 if smaller,
unchanged if equal; the 16-bit value does not wrap and the two adjustments
never both apply. -/
theorem cycle_adjust_step (old count : Nat) (ho : old < 65536) (hc : count < 65536)
    (hne : old ≠ 0xfffb) :
    (count > old → cycle_adjust old count = old + 1 ∧ old + 1 ≤ 0xffff) ∧
    (count < old → cycle_adjust old count = old - 1 ∧ 1 ≤ old) ∧
    (count = old → cycle_adjust old count = old) ∧
    ¬ (count > cycle_snap count old ∧ count < cycle_inc count (cycle_snap count old)) := by
  have hsnap : cycle_snap count old = old := by simp [cycle_snap, hne]
  refine ⟨?_, ?_, ?_, ?_⟩
  · intro h
    have hmod : (old + 1) % 65536 = old + 1 := Nat.mod_eq_of_lt (by omega)
    have hnlt : ¬ count < old + 1 := by omega
    simp only [cycle_adjust, hsnap, cycle_inc, cycle_dec, h, if_true, hmod, hnlt, if_false]
    exact ⟨trivial, by omega⟩
  · intro h
    have hngt : ¬ count > old := by omega
    have hmod : (old + 65535) % 65536 = old - 1 := by omega
    simp only [cycle_adjust, hsnap, cycle_inc, cycle_dec, hngt, h, if_true, if_false, hmod]
    exact ⟨trivial, by omega⟩
  · intro h
    subst h
    simp [cycle_adjust, hsnap, cycle_inc, cycle_dec]
  · rw [hsnap]
    unfold cycle_inc
    split <;> omega

theorem cycle_adjust_step_witness :
    (1500 : Nat) < 65536 ∧ (1510 : Nat) < 65536 ∧ (1500 : Nat) ≠ 0xfffb ∧
    ((1510 > 1500 → cycle_adjust 1500 1510 = 1500 + 1 ∧ 1500 + 1 ≤ 0xffff) ∧
    (1510 < 1500 → cycle_adjust 1500 1510 = 1500 - 1 ∧ 1 ≤ 1500) ∧
    (1510 = 1500 → cycle_adjust 1500 1510 = 1500) ∧
    ¬ (1510 > cycle_snap 1510 1500 ∧ 1510 < cycle_inc 1510 (cycle_snap 1510 1500))) :=
  ⟨by decide, by decide, by decide,
    cycle_adjust_step 1500 1510 (by decide) (by decide) (by decide)⟩

/-- One update with the measured count `c` keeps the estimate 16-bit and, unless
it already equals `c`, brings it at least 1 closer to `c`. -/
theorem cycle_adjust_closer (L c : Nat) (hL : L < 65536) (hc : c < 65536) :
    cycle_adjust L c < 65536 ∧
    (cycle_adjust L c - c) + (c - cycle_adjust L c) ≤ (L - c) + (c - L) - 1 := by
  by_cases hs : L = 0xfffb
  · subst hs
    simp [cycle_adjust, cycle_snap, cycle_inc, cycle_dec, hc]
  · have hsnap : cycle_snap c L = L := by simp [cycle_snap, hs]
    simp only [cycle_adjust, hsnap, cycle_inc, cycle_dec]
    split <;> split <;> omega

/-- C8: if every call measures the same count `c`, then from any `cycle_len`
value `L` the estimate equals `c` after `|L - c|` calls and after every larger
number of calls. -/
theorem cycle_adjust_converges (L c k : Nat) (hL : L < 65536) (hc : c < 65536)
    (hk : (L - c) + (c - L) ≤ k) :
    (fun l => cycle_adjust l c)^[k] L = c := by
  induction k generalizing L with
  | zero =>
    rw [Function.iterate_zero, id]
    omega
  | succ k ih =>
    rw [Function.iterate_succ_apply]
    obtain ⟨hlt, hd⟩ := cycle_adjust_closer L c hL hc
    exact ih (cycle_adjust L c) hlt (by omega)

theorem cycle_adjust_converges_witness :
    (1503 : Nat) < 65536 ∧ (1500 : Nat) < 65536 ∧ (1503 - 1500) + (1500 - 1503) ≤ 3 ∧
    (fun l => cycle_adjust l 1500)^[3] 1503 = 1500 :=
  ⟨by decide, by decide, by decide,
    cycle_adjust_converges 1503 1500 3 (by decide) (by decide) (by decide)⟩

/-- C9: from the initial `cycle_len = 0xffff`, if each of the first five calls
measures a count below 0xfffb, then `cycle_len` is 0xfffe, 0xfffd, 0xfffc,
0xfffb after calls 1 to 4 and exactly the 5th measured count after call 5. -/
theorem cycle_len_startup (c1 c2 c3 c4 c5 : Nat) (h1 : c1 < 0xfffb) (h2 : c2 < 0xfffb)
    (h3 : c3 < 0xfffb) (h4 : c4 < 0xfffb) (_h5 : c5 < 0xfffb) :
    List.foldl cycle_adjust cycle_init.cycle_len [c1] = 0xfffe ∧
    List.foldl cycle_adjust cycle_init.cycle_len [c1, c2] = 0xfffd ∧
    List.foldl cycle_adjust cycle_init.cycle_len [c1, c2, c3] = 0xfffc ∧
    List.foldl cycle_adjust cycle_init.cycle_len [c1, c2, c3, c4] = 0xfffb ∧
    List.foldl cycle_adjust cycle_init.cycle_len [c1, c2, c3, c4, c5] = c5 := by
  have hdown : ∀ L c : Nat, c < 0xfffb → 0xfffb < L → L < 65536 →
      cycle_adjust L c = L - 1 := by
    intro L c hc hL hL'
    have hs : cycle_snap c L = L := by
      unfold cycle_snap
      rw [if_neg (by omega)]
    have hngt : ¬ c > L := by omega
    have hlt : c < L := by omega
    have hmod : (L + 65535) % 65536 = L - 1 := by omega
    simp only [cycle_adjust, hs, cycle_inc, cycle_dec, hngt, hlt, if_true, if_false, hmod]
  have hsnap : ∀ c : Nat, cycle_adjust 0xfffb c = c := by
    intro c
    simp [cycle_adjust, cycle_snap, cycle_inc, cycle_dec]
  have e1 : cycle_adjust 0xffff c1 = 0xfffe := hdown 0xffff c1 h1 (by decide) (by decide)
  have e2 : cycle_adjust 0xfffe c2 = 0xfffd := hdown 0xfffe c2 h2 (by decide) (by decide)
  have e3 : cycle_adjust 0xfffd c3 = 0xfffc := hdown 0xfffd c3 h3 (by decide) (by decide)
  have e4 : cycle_adjust 0xfffc c4 = 0xfffb := hdown 0xfffc c4 h4 (by decide) (by decide)
  have hinit : cycle_init.cycle_len = 0xffff := rfl
  simp only [List.foldl, hinit, e1, e2, e3, e4, hsnap, and_self]

theorem cycle_len_startup_witness :
    (1498 : Nat) < 0xfffb ∧ (1502 : Nat) < 0xfffb ∧ (1499 : Nat) < 0xfffb ∧
    (1501 : Nat) < 0xfffb ∧ (1500 : Nat) < 0xfffb ∧
    (List.foldl cycle_adjust cycle_init.cycle_len [1498] = 0xfffe ∧
    List.foldl cycle_adjust cycle_init.cycle_len [1498, 1502] = 0xfffd ∧
    List.foldl cycle_adjust cycle_init.cycle_len [1498, 1502, 1499] = 0xfffc ∧
    List.foldl cycle_adjust cycle_init.cycle_len [1498, 1502, 1499, 1501] = 0xfffb ∧
    List.foldl cycle_adjust cycle_init.cycle_len [1498, 1502, 1499, 1501, 1500] = 1500) :=
  ⟨by decide, by decide, by decide, by decide, by decide,
    cycle_len_startup 1498 1502 1499 1501 1500 (by decide) (by decide) (by decide)
      (by decide) (by decide)⟩

/-! ## C10: a button press during the ramp-up -/

theorem LVL_RAMP_1800 : LVL_RAMP 1800 = 11930 := by decide

theorem LVL_SCALE_lt (x : Nat) (hx : x ≤ LVL_MAX) : LVL_SCALE x < 65536 := by
  unfold LVL_SCALE
  unfold LVL_MAX at hx
  rw [Nat.shiftLeft_eq, Nat.shiftRight_eq_div_pow]
  have : x / 2 ^ 16 ≤ 32767 := by
    rw [show (2 : Nat) ^ 16 = 65536 by norm_num]
    omega
  omega

theorem main_step_rampup (ramp_off : Nat → Nat) (s : MainState) (pin : Bool)
    (hm : s.mode = Mode.RampUp) :
    main_step ramp_off s pin =
      if (button_pressed s.acc pin).2 then enter_off s.level (button_pressed s.acc pin).1
      else enter_rampup ((s.level + LVL_RAMP 1800) % 4294967296) (button_pressed s.acc pin).1 := by
  unfold main_step
  rw [hm]

/-- Without a detected press the ramp-up loop is at `level = j * LVL_RAMP(1800)`
in its iteration `j`, as long as that level is at most `LVL_MAX`. -/
theorem main_state_rampup (ramp_off : Nat → Nat) (pins : Nat → Bool) (i : Nat)
    (hlevel : i * LVL_RAMP 1800 ≤ LVL_MAX)
    (hno : ∀ j, j < i → main_pressed ramp_off pins j = false) :
    (main_state ramp_off pins i).mode = Mode.RampUp ∧
    (main_state ramp_off pins i).level = i * LVL_RAMP 1800 := by
  induction i with
  | zero => exact ⟨rfl, by simp [main_state, main_init, enter_rampup]⟩
  | succ i ih =>
    have hle : i * LVL_RAMP 1800 ≤ LVL_MAX := by
      rw [Nat.succ_mul] at hlevel
      omega
    obtain ⟨hmode, hlev⟩ := ih hle (fun j hj => hno j (by omega))
    have hnp := hno i (by omega)
    unfold main_pressed at hnp
    have hnext : (i + 1) * LVL_RAMP 1800 = i * LVL_RAMP 1800 + LVL_RAMP 1800 :=
      Nat.succ_mul _ _
    have hmax : LVL_MAX < 4294967296 := by decide
    have hmod : (i * LVL_RAMP 1800 + LVL_RAMP 1800) % 4294967296
        = i * LVL_RAMP 1800 + LVL_RAMP 1800 := Nat.mod_eq_of_lt (by omega)
    rw [main_state, main_step_rampup ramp_off _ _ hmode, hnp, hlev, hmod]
    simp only [Bool.false_eq_true, if_false, enter_rampup]
    rw [if_pos (by omega)]
    exact ⟨rfl, hnext.symm⟩

/-- C10: if the first button press is detected in iteration `i` of the ramp-up
loop, at `level = i * LVL_RAMP(1800) ≤ LVL_MAX`, the next iteration is the
first one of the off-ramp loop with `level` unchanged, and its call to `cycle`
receives `LVL_SCALE` of exactly the level of the last ramp-up call. -/
theorem rampup_press_no_overshoot (ramp_off : Nat → Nat) (pins : Nat → Bool) (i : Nat)
    (hlevel : i * LVL_RAMP 1800 ≤ LVL_MAX)
    (hno : ∀ j, j < i → main_pressed ramp_off pins j = false)
    (hyes : main_pressed ramp_off pins i = true) :
    (main_state ramp_off pins i).mode = Mode.RampUp ∧
    (main_state ramp_off pins i).level = i * LVL_RAMP 1800 ∧
    (main_state ramp_off pins (i + 1)).mode = Mode.Off ∧
    (main_state ramp_off pins (i + 1)).level = i * LVL_RAMP 1800 ∧
    call_level (main_state ramp_off pins (i + 1)) = LVL_SCALE (i * LVL_RAMP 1800) ∧
    call_level (main_state ramp_off pins (i + 1))
      = call_level (main_state ramp_off pins i) := by
  obtain ⟨hmode, hlev⟩ := main_state_rampup ramp_off pins i hlevel hno
  unfold main_pressed at hyes
  have hscale := Nat.mod_eq_of_lt (LVL_SCALE_lt _ hlevel)
  have hnext : main_state ramp_off pins (i + 1)
      = { mode := Mode.Off, level := i * LVL_RAMP 1800,
          acc := (button_pressed (main_state ramp_off pins i).acc (pins i)).1 } := by
    rw [main_state, main_step_rampup ramp_off _ _ hmode, hyes, hlev]
    simp only [if_true, enter_off]
    rw [if_pos hlevel]
  have hcall : call_level (main_state ramp_off pins i) = LVL_SCALE (i * LVL_RAMP 1800) := by
    unfold call_level
    rw [hmode, hlev]
    exact hscale
  refine ⟨hmode, hlev, ?_, ?_, ?_, ?_⟩
  · rw [hnext]
  · rw [hnext]
  · rw [hnext]; exact hscale
  · rw [hcall, hnext]; exact hscale

theorem rampup_press_no_overshoot_witness :
    6 * LVL_RAMP 1800 ≤ LVL_MAX ∧
    (∀ j, j < 6 → main_pressed (fun x => x) (fun n => decide (n = 6)) j = false) ∧
    main_pressed (fun x => x) (fun n => decide (n = 6)) 6 = true ∧
    ((main_state (fun x => x) (fun n => decide (n = 6)) 6).mode = Mode.RampUp ∧
    (main_state (fun x => x) (fun n => decide (n = 6)) 6).level = 6 * LVL_RAMP 1800 ∧
    (main_state (fun x => x) (fun n => decide (n = 6)) (6 + 1)).mode = Mode.Off ∧
    (main_state (fun x => x) (fun n => decide (n = 6)) (6 + 1)).level = 6 * LVL_RAMP 1800 ∧
    call_level (main_state (fun x => x) (fun n => decide (n = 6)) (6 + 1))
      = LVL_SCALE (6 * LVL_RAMP 1800) ∧
    call_level (main_state (fun x => x) (fun n => decide (n = 6)) (6 + 1))
      = call_level (main_state (fun x => x) (fun n => decide (n = 6)) 6)) :=
  ⟨by decide, by decide, by decide,
    rampup_press_no_overshoot (fun x => x) (fun n => decide (n = 6)) 6
      (by decide) (by decide) (by decide)⟩

/-! ## C11: the blink pattern -/

/-- A call in the dark phase: the count rises until it exceeds `off`, then the
LED is switched on. -/
theorem blink_step_dark (n_on n_off c : Nat) (hon1 : 1 ≤ n_on) (hoff : n_off ≤ 254)
    (hc : c ≤ n_off) :
    blink n_on n_off { state := 0, count := c, led := false } =
      if c + 1 > n_off then { state := 1, count := 0, led := true }
      else { state := 0, count := c + 1, led := false } := by
  have hmod : (c + 1) % 256 = c + 1 := Nat.mod_eq_of_lt (by omega)
  unfold blink
  dsimp only
  rw [hmod]
  split_ifs <;> first | rfl | omega | simp_all

/-- A call in the lit phase: the count rises until it exceeds `on`, then the
LED is switched off. -/
theorem blink_step_lit (n_on n_off c : Nat) (hon : n_on ≤ 254) (hoff1 : 1 ≤ n_off)
    (hc : c ≤ n_on) :
    blink n_on n_off { state := 1, count := c, led := true } =
      if c + 1 > n_on then { state := 0, count := 0, led := false }
      else { state := 1, count := c + 1, led := true } := by
  have hmod : (c + 1) % 256 = c + 1 := Nat.mod_eq_of_lt (by omega)
  unfold blink
  dsimp only
  rw [hmod]
  split_ifs <;> first | rfl | omega | simp_all

/-- The statics of `blink` after `n` calls with constant parameters, by the
position `n % (on + off + 2)` in the period. -/
theorem blink_run_state (n_on n_off : Nat) (hon1 : 1 ≤ n_on) (hon : n_on ≤ 254)
    (hoff1 : 1 ≤ n_off) (hoff : n_off ≤ 254) (n : Nat) :
    (n % (n_on + n_off + 2) ≤ n_off →
      blink_run n_on n_off n =
        { state := 0, count := n % (n_on + n_off + 2), led := false }) ∧
    (n_off < n % (n_on + n_off + 2) →
      blink_run n_on n_off n =
        { state := 1, count := n % (n_on + n_off + 2) - (n_off + 1), led := true }) := by
  induction n with
  | zero =>
    rw [Nat.zero_mod]
    exact ⟨fun _ => rfl, fun h => absurd h (by omega)⟩
  | succ n ih =>
    have hP : 0 < n_on + n_off + 2 := by omega
    have hr : n % (n_on + n_off + 2) < n_on + n_off + 2 := Nat.mod_lt _ hP
    have h1 : 1 % (n_on + n_off + 2) = 1 := Nat.mod_eq_of_lt (by omega)
    have hnext : (n + 1) % (n_on + n_off + 2) =
        if n % (n_on + n_off + 2) + 1 = n_on + n_off + 2 then 0
        else n % (n_on + n_off + 2) + 1 := by
      rw [Nat.add_mod, h1]
      split
      · next h => rw [h, Nat.mod_self]
      · next h => rw [Nat.mod_eq_of_lt (by omega)]
    generalize n % (n_on + n_off + 2) = r at ih hr hnext
    rw [hnext, blink_run]
    by_cases hdark : r ≤ n_off
    · rw [ih.1 hdark, blink_step_dark n_on n_off r hon1 hoff hdark,
        if_neg (by omega : ¬ r + 1 = n_on + n_off + 2)]
      by_cases hsw : r + 1 > n_off
      · rw [if_pos hsw]
        refine ⟨fun h => absurd h (by omega), fun _ => ?_⟩
        congr 1
        omega
      · rw [if_neg hsw]
        exact ⟨fun _ => rfl, fun h => absurd h (by omega)⟩
    · rw [ih.2 (by omega), blink_step_lit n_on n_off _ hon hoff1 (by omega)]
      by_cases hwrap : r + 1 = n_on + n_off + 2
      · rw [if_pos (by omega : r - (n_off + 1) + 1 > n_on), if_pos hwrap]
        exact ⟨fun _ => rfl, fun h => absurd h (by omega)⟩
      · rw [if_neg (by omega : ¬ r - (n_off + 1) + 1 > n_on), if_neg hwrap]
        refine ⟨fun h => absurd h (by omega), fun _ => ?_⟩
        congr 1
        omega

/-- C11 (the code's behaviour): with constant parameters `1 ≤ on ≤ 254` and
`1 ≤ off ≤ 254` the LED pattern has period `on + off + 2` calls: after call
`n` the LED is dark when `n % (on + off + 2) ≤ off` (`off + 1` calls) and lit
otherwise (`on + 1` calls), one call more than each parameter. -/
theorem blink_led_pattern (n_on n_off : Nat) (hon1 : 1 ≤ n_on) (hon : n_on ≤ 254)
    (hoff1 : 1 ≤ n_off) (hoff : n_off ≤ 254) (n : Nat) :
    (blink_run n_on n_off n).led = decide (n_off < n % (n_on + n_off + 2)) := by
  obtain ⟨hdark, hlit⟩ := blink_run_state n_on n_off hon1 hon hoff1 hoff n
  by_cases h : n % (n_on + n_off + 2) ≤ n_off
  · rw [hdark h]
    have : ¬ n_off < n % (n_on + n_off + 2) := by omega
    simp [this]
  · have h' : n_off < n % (n_on + n_off + 2) := by omega
    rw [hlit h']
    simp [h']

theorem blink_led_pattern_witness :
    (1 : Nat) ≤ 50 ∧ (50 : Nat) ≤ 254 ∧ (1 : Nat) ≤ 50 ∧ (50 : Nat) ≤ 254 ∧
    (blink_run 50 50 101).led = decide (50 < 101 % (50 + 50 + 2)) :=
  ⟨by decide, by decide, by decide, by decide,
    blink_led_pattern 50 50 (by decide) (by decide) (by decide) (by decide) 101⟩

/-! ## C12: the fire target at maximum brightness -/

/-- C12, as stated, fails: with `cycle_len = 1500` the target for the maximum
level 0xffff is 0, which is not within 1 count of `1500 - 0x90 = 1356`. -/
theorem cycle_target_max_level_not_near_margin :
    cycle_target 1500 0xffff = 0 ∧
    ¬ (1500 - 0x90 - 1 ≤ cycle_target 1500 0xffff ∧
        cycle_target 1500 0xffff ≤ 1500 - 0x90 + 1) := by
  decide

/-- C12 (amended): at maximum brightness (level 0xffff) with `cycle_len = 1500`
the fire target is 0, and it is 0 on each of 100 consecutive calls that start
from `cycle_len = 1500` and each measure the count 1500, during which
`cycle_len` stays at 1500. -/
theorem cycle_target_max_level (counts : Nat → Nat)
    (h : ∀ i, i < 100 → counts i = 1500) (i : Nat) (hi : i < 100) :
    cycle_len_seq 1500 counts i = 1500 ∧
    cycle_target (cycle_len_seq 1500 counts i) 0xffff = 0 := by
  have hlen : ∀ j, j ≤ 100 → cycle_len_seq 1500 counts j = 1500 := by
    intro j
    induction j with
    | zero => intro _; rfl
    | succ j ih =>
      intro hj
      rw [cycle_len_seq, ih (by omega), h j (by omega)]
      decide
  rw [hlen i (by omega)]
  exact ⟨rfl, by decide⟩

theorem cycle_target_max_level_witness :
    (∀ i, i < 100 → (fun _ => 1500) i = 1500) ∧ (99 : Nat) < 100 ∧
    (cycle_len_seq 1500 (fun _ => 1500) 99 = 1500 ∧
      cycle_target (cycle_len_seq 1500 (fun _ => 1500) 99) 0xffff = 0) :=
  ⟨fun _ _ => rfl, by decide,
    cycle_target_max_level (fun _ => 1500) (fun _ _ => rfl) 99 (by decide)⟩

/-! ## C13: the safety margin of the fire target -/

/-- C13: for every level in 1..0xffff and every `cycle_len` with
`0x90 < cycle_len ≤ 0xffff` the fire target is strictly below
`cycle_len - 0x90`. -/
theorem cycle_target_margin (cycle_len level : Nat) (hl1 : 1 ≤ level)
    (hl : level ≤ 0xffff) (hc1 : 0x90 < cycle_len) (hc : cycle_len ≤ 0xffff) :
    cycle_target cycle_len level < cycle_len - 0x90 := by
  have hk : (cycle_len + 65536 - 0x90) % 65536 = cycle_len - 0x90 := by omega
  have hlev : level ≠ 0 := by omega
  simp only [cycle_target, hlev, if_false, hk]
  generalize ((mul16_h16 (mul16_h16 level level) (mul16_h16 level level) >>> 1)
    + (level >>> 1)) % 65536 = v
  have h4 : (0xffff + 65536 - v) % 65536 < 65536 := Nat.mod_lt _ (by norm_num)
  generalize (0xffff + 65536 - v) % 65536 = t4 at h4
  rw [mul16_h16_closed _ _ (by omega) h4]
  apply Nat.div_lt_of_lt_mul
  rw [Nat.mul_comm 65536]
  exact Nat.mul_lt_mul_of_pos_left (by omega) (by omega)

theorem cycle_target_margin_witness :
    (1 : Nat) ≤ 1 ∧ (1 : Nat) ≤ 0xffff ∧ (0x90 : Nat) < 1500 ∧ (1500 : Nat) ≤ 0xffff ∧
    cycle_target 1500 1 < 1500 - 0x90 :=
  ⟨by decide, by decide, by decide, by decide,
    cycle_target_margin 1500 1 (by decide) (by decide) (by decide) (by decide)⟩

/-! ## C14: the step count of the multiplier -/

theorem mul16_loop_steps_eq (n : Nat) :
    ∀ (a b : Nat) (s : MulSteps),
      mul16_loop_steps n a b s =
        { result := mul16_loop n a b s.result
          iters := s.iters + n
          adds := s.adds + (Finset.range n).sum (fun i => a / 2 ^ i % 2)
          steps := s.steps + 3 * n + (Finset.range n).sum (fun i => a / 2 ^ i % 2) } := by
  induction n with
  | zero => intro a b s; simp [mul16_loop_steps, mul16_loop]
  | succ n ih =>
    intro a b s
    have hsum : (Finset.range (n + 1)).sum (fun i => a / 2 ^ i % 2)
        = (Finset.range n).sum (fun i => a / 2 / 2 ^ i % 2) + a % 2 := by
      rw [Finset.sum_range_succ']
      simp only [pow_zero, Nat.div_one, pow_succ', Nat.div_div_eq_div_mul]
    rw [mul16_loop_steps, mul16_loop, hsum]
    simp only [Nat.shiftRight_one, Nat.and_one_is_mod]
    rcases Nat.mod_two_eq_zero_or_one a with h0 | h1
    · simp only [h0, ne_eq, not_true_eq_false, if_false]
      rw [ih]
      simp only [MulSteps.mk.injEq]
      refine ⟨trivial, ?_, ?_, ?_⟩ <;> omega
    · simp only [h1, ne_eq, one_ne_zero, not_false_eq_true, if_true]
      rw [ih]
      simp only [MulSteps.mk.injEq]
      refine ⟨trivial, ?_, ?_, ?_⟩ <;> omega

/-- C14: in the step-counting embedding of `mul16_h16` the loop body runs
exactly 16 times and `c += b` is executed exactly popcount(a) times, so the
executed step count is the same for any two values of `b`; the embedding
computes the same result as `mul16_h16`. -/
theorem mul16_h16_step_count (a b : Nat) :
    (mul16_h16_steps a b).iters = 16 ∧
    (mul16_h16_steps a b).adds = popcount16 a ∧
    (mul16_h16_steps a b).steps = 48 + popcount16 a ∧
    (mul16_h16_steps a b).result = mul16_h16 a b ∧
    (∀ b1 b2 : Nat, (mul16_h16_steps a b1).steps = (mul16_h16_steps a b2).steps ∧
      (mul16_h16_steps a b1).iters = (mul16_h16_steps a b2).iters ∧
      (mul16_h16_steps a b1).adds = (mul16_h16_steps a b2).adds) := by
  have h : ∀ b' : Nat, mul16_h16_steps a b' =
      { result := mul16_h16 a b', iters := 16, adds := popcount16 a,
        steps := 48 + popcount16 a } := by
    intro b'
    unfold mul16_h16_steps mul16_h16 popcount16
    rw [mul16_loop_steps_eq]
    simp
  refine ⟨by rw [h], by rw [h], by rw [h], by rw [h], ?_⟩
  intro b1 b2
  rw [h b1, h b2]
  exact ⟨rfl, rfl, rfl⟩

/-! ## C20: closed form and overflow-freedom of the multiplier -/

theorem mul16_loop_eq_nat (n : Nat) :
    ∀ a b c : Nat, b < 32768 → c ≤ 2 * b →
      mul16_loop n a b c = mul16_loop_nat n a b c := by
  induction n with
  | zero => intro a b c _ _; rfl
  | succ n ih =>
    intro a b c hb hc
    rw [mul16_loop, mul16_loop_nat]
    simp only [Nat.shiftRight_one]
    split
    · have hlt : c / 2 + b < 65536 := by omega
      rw [Nat.mod_eq_of_lt hlt]
      exact ih _ b _ hb (by omega)
    · exact ih _ b _ hb (by omega)

theorem mul16_trace_le (n : Nat) :
    ∀ a b c : Nat, c ≤ 2 * b → ∀ x ∈ mul16_trace n a b c, x ≤ 2 * b := by
  induction n with
  | zero => intro a b c _ x hx; simp [mul16_trace] at hx
  | succ n ih =>
    intro a b c hc x hx
    rw [mul16_trace] at hx
    simp only [Nat.shiftRight_one, List.mem_cons] at hx
    split at hx
    · rcases hx with rfl | hx
      · omega
      · exact ih _ b _ (by omega) x hx
    · rcases hx with rfl | hx
      · omega
      · exact ih _ b _ (by omega) x hx

/-- C20: for all 16-bit `a`, `b` no value of the accumulator exceeds 0xffff (the
16-bit computation equals the one over unbounded naturals), the result is
exactly `a * (b - b % 2) / 65536`, and it is the true high word `a * b / 65536`
whenever `b` is even. -/
theorem mul16_h16_exact (a b : Nat) (ha : a < 65536) (hb : b < 65536) :
    (∀ x ∈ mul16_trace 16 a (b >>> 1) 0, x ≤ 0xffff) ∧
    mul16_h16 a b = mul16_h16_nat a b ∧
    mul16_h16 a b = a * (b - b % 2) / 65536 ∧
    (b % 2 = 0 → mul16_h16 a b = a * b / 65536) := by
  have hb2 : b >>> 1 < 32768 := by rw [Nat.shiftRight_one]; omega
  have hclosed : mul16_h16 a b = a * (b - b % 2) / 65536 := by
    rw [mul16_h16_closed a b ha hb]
    congr 2
    omega
  refine ⟨?_, ?_, hclosed, ?_⟩
  · intro x hx
    have := mul16_trace_le 16 a (b >>> 1) 0 (by omega) x hx
    omega
  · unfold mul16_h16 mul16_h16_nat
    exact mul16_loop_eq_nat 16 a (b >>> 1) 0 hb2 (by omega)
  · intro heven
    rw [hclosed, heven, Nat.sub_zero]

theorem mul16_h16_exact_witness :
    (65535 : Nat) < 65536 ∧ (65534 : Nat) < 65536 ∧
    ((∀ x ∈ mul16_trace 16 65535 (65534 >>> 1) 0, x ≤ 0xffff) ∧
    mul16_h16 65535 65534 = mul16_h16_nat 65535 65534 ∧
    mul16_h16 65535 65534 = 65535 * (65534 - 65534 % 2) / 65536 ∧
    (65534 % 2 = 0 → mul16_h16 65535 65534 = 65535 * 65534 / 65536)) :=
  ⟨by decide, by decide, mul16_h16_exact 65535 65534 (by decide) (by decide)⟩

/-! ## C15: one pulse per call -/

theorem timing_loop_iters_le (io_tgt target : Nat) (zc : List Bool) :
    ∀ s : LoopState, s.iters ≤ (timing_loop io_tgt target zc s).iters := by
  induction zc with
  | nil => intro s; exact le_refl _
  | cons z rest ih =>
    intro s
    rw [timing_loop]
    split
    · exact le_trans (Nat.le_succ _) (ih (loop_body target z s))
    · exact le_refl _

/-- One iteration keeps the relation between `count`, `pulses`, the flag and
the number of iterations, and the flagged body does the same as the code. -/
theorem loop_body_pulse_inv (target : Nat) (z : Bool) (s : LoopState) (fired : Bool)
    (hb : s.iters + 16 < 65536)
    (hinv : (s.iters ≤ target ∧ s.pulses = 0 ∧ s.count = s.iters ∧ fired = false) ∨
      (target < s.iters ∧ s.pulses = 1 ∧ s.count = s.iters + 15 ∧ fired = true)) :
    spec_loop_body target z s fired
      = (loop_body target z s, decide (target < (loop_body target z s).iters)) ∧
    (((loop_body target z s).iters ≤ target ∧ (loop_body target z s).pulses = 0 ∧
        (loop_body target z s).count = (loop_body target z s).iters) ∨
      (target < (loop_body target z s).iters ∧ (loop_body target z s).pulses = 1 ∧
        (loop_body target z s).count = (loop_body target z s).iters + 15)) := by
  obtain ⟨acc, count, pulses, iters⟩ := s
  simp only at hb hinv
  rcases hinv with ⟨hle, hp, hc, hf⟩ | ⟨hlt, hp, hc, hf⟩
  · subst hp hf
    rw [hc]
    by_cases hfire : iters = target
    · have hm1 : (iters + 15) % 65536 = iters + 15 := Nat.mod_eq_of_lt (by omega)
      have hm2 : (iters + 15 + 1) % 65536 = iters + 15 + 1 := Nat.mod_eq_of_lt (by omega)
      have hlt : target < iters + 1 := by omega
      simp only [spec_loop_body, loop_body, hfire, and_self, if_true, hm1, hm2]
      rw [← hfire, hm1, hm2]
      refine ⟨by simp, Or.inr ⟨by omega, by simp, by omega⟩⟩
    · have hm : (iters + 1) % 65536 = iters + 1 := Nat.mod_eq_of_lt (by omega)
      have hnlt : ¬ target < iters + 1 := by omega
      simp only [spec_loop_body, loop_body, hfire, false_and, if_false, hm]
      refine ⟨by simp [hnlt], Or.inl ⟨by omega, by simp, by simp⟩⟩
  · subst hp hc hf
    have hne : iters + 15 ≠ target := by omega
    have hm : (iters + 15 + 1) % 65536 = iters + 15 + 1 := Nat.mod_eq_of_lt (by omega)
    have hlt' : target < iters + 1 := by omega
    simp only [spec_loop_body, loop_body, hne, false_and, if_false, hm]
    refine ⟨by simp [hlt'], Or.inr ⟨by omega, by simp, by simp⟩⟩

theorem timing_loop_pulse_inv (io_tgt target : Nat) (zc : List Bool) :
    ∀ (s : LoopState) (fired : Bool),
      ((s.iters ≤ target ∧ s.pulses = 0 ∧ s.count = s.iters ∧ fired = false) ∨
        (target < s.iters ∧ s.pulses = 1 ∧ s.count = s.iters + 15 ∧ fired = true)) →
      (timing_loop io_tgt target zc s).iters + 15 < 65536 →
      spec_timing_loop io_tgt target zc (s, fired)
        = (timing_loop io_tgt target zc s,
            decide (target < (timing_loop io_tgt target zc s).iters)) ∧
      (((timing_loop io_tgt target zc s).iters ≤ target ∧
          (timing_loop io_tgt target zc s).pulses = 0 ∧
          (timing_loop io_tgt target zc s).count = (timing_loop io_tgt target zc s).iters) ∨
        (target < (timing_loop io_tgt target zc s).iters ∧
          (timing_loop io_tgt target zc s).pulses = 1 ∧
          (timing_loop io_tgt target zc s).count
            = (timing_loop io_tgt target zc s).iters + 15)) := by
  have hstop : ∀ (s : LoopState) (fired : Bool),
      ((s.iters ≤ target ∧ s.pulses = 0 ∧ s.count = s.iters ∧ fired = false) ∨
        (target < s.iters ∧ s.pulses = 1 ∧ s.count = s.iters + 15 ∧ fired = true)) →
      (s, fired) = (s, decide (target < s.iters)) ∧
      ((s.iters ≤ target ∧ s.pulses = 0 ∧ s.count = s.iters) ∨
        (target < s.iters ∧ s.pulses = 1 ∧ s.count = s.iters + 15)) := by
    intro s fired hinv
    rcases hinv with ⟨h1, h2, h3, h4⟩ | ⟨h1, h2, h3, h4⟩
    · have : ¬ target < s.iters := by omega
      exact ⟨by simp [h4, this], Or.inl ⟨h1, h2, h3⟩⟩
    · exact ⟨by simp [h4, h1], Or.inr ⟨h1, h2, h3⟩⟩
  induction zc with
  | nil =>
    intro s fired hinv _
    rw [timing_loop, spec_timing_loop]
    exact hstop s fired hinv
  | cons z rest ih =>
    intro s fired hinv hb
    rw [timing_loop] at hb ⊢
    rw [spec_timing_loop]
    by_cases hexit : s.io_acc = io_tgt
    · simp only [hexit, ne_eq, not_true_eq_false, if_false] at hb ⊢
      exact hstop s fired hinv
    · simp only [hexit, ne_eq, not_false_eq_true, if_true] at hb ⊢
      have hmono := timing_loop_iters_le io_tgt target rest (loop_body target z s)
      have hiter : (loop_body target z s).iters = s.iters + 1 := rfl
      obtain ⟨hspec, hnext⟩ := loop_body_pulse_inv target z s fired (by omega) hinv
      rw [hspec]
      apply ih _ _ _ hb
      rcases hnext with ⟨h1, h2, h3⟩ | ⟨h1, h2, h3⟩
      · exact Or.inl ⟨h1, h2, h3, by simp; omega⟩
      · exact Or.inr ⟨h1, h2, h3, by simp; omega⟩

/-- C15: within one call, for every target and every zero-cross sample
sequence on which the timing loop has run `k` iterations with
`k + 15 < 65536`: the triac is pulsed at most once, it is pulsed iff
`target < k`, the measured count is `k + 15` if it was pulsed and `k`
otherwise, and the loop with the specification's "not yet fired" flag gives
the same result as the flag-free test `count == target`. -/
theorem timing_loop_single_pulse (io_tgt target acc0 : Nat) (zc : List Bool)
    (hk : (timing_loop io_tgt target zc
      { io_acc := acc0, count := 0, pulses := 0, iters := 0 }).iters + 15 < 65536) :
    (timing_loop io_tgt target zc
      { io_acc := acc0, count := 0, pulses := 0, iters := 0 }).pulses ≤ 1 ∧
    ((timing_loop io_tgt target zc
      { io_acc := acc0, count := 0, pulses := 0, iters := 0 }).pulses = 1 ↔
      target < (timing_loop io_tgt target zc
        { io_acc := acc0, count := 0, pulses := 0, iters := 0 }).iters) ∧
    (timing_loop io_tgt target zc
      { io_acc := acc0, count := 0, pulses := 0, iters := 0 }).count =
      (if target < (timing_loop io_tgt target zc
          { io_acc := acc0, count := 0, pulses := 0, iters := 0 }).iters
        then (timing_loop io_tgt target zc
          { io_acc := acc0, count := 0, pulses := 0, iters := 0 }).iters + 15
        else (timing_loop io_tgt target zc
          { io_acc := acc0, count := 0, pulses := 0, iters := 0 }).iters) ∧
    (spec_timing_loop io_tgt target zc
        ({ io_acc := acc0, count := 0, pulses := 0, iters := 0 }, false)).1 =
      timing_loop io_tgt target zc
        { io_acc := acc0, count := 0, pulses := 0, iters := 0 } := by
  obtain ⟨hspec, hinv⟩ := timing_loop_pulse_inv io_tgt target zc
    { io_acc := acc0, count := 0, pulses := 0, iters := 0 } false
    (Or.inl ⟨Nat.zero_le _, rfl, rfl, rfl⟩) hk
  generalize timing_loop io_tgt target zc
    { io_acc := acc0, count := 0, pulses := 0, iters := 0 } = l at hspec hinv hk
  refine ⟨?_, ?_, ?_, by rw [hspec]⟩
  · rcases hinv with ⟨_, h2, _⟩ | ⟨_, h2, _⟩ <;> omega
  · rcases hinv with ⟨h1, h2, _⟩ | ⟨h1, h2, _⟩
    · constructor <;> intro h <;> omega
    · exact ⟨fun _ => h1, fun _ => h2⟩
  · rcases hinv with ⟨h1, _, h3⟩ | ⟨h1, _, h3⟩
    · rw [if_neg (by omega), h3]
    · rw [if_pos h1, h3]

theorem timing_loop_single_pulse_witness :
    (timing_loop 0 5 (List.replicate 20 true ++ List.replicate 8 false)
      { io_acc := 255, count := 0, pulses := 0, iters := 0 }).iters + 15 < 65536 ∧
    ((timing_loop 0 5 (List.replicate 20 true ++ List.replicate 8 false)
      { io_acc := 255, count := 0, pulses := 0, iters := 0 }).pulses ≤ 1 ∧
    ((timing_loop 0 5 (List.replicate 20 true ++ List.replicate 8 false)
      { io_acc := 255, count := 0, pulses := 0, iters := 0 }).pulses = 1 ↔
      5 < (timing_loop 0 5 (List.replicate 20 true ++ List.replicate 8 false)
        { io_acc := 255, count := 0, pulses := 0, iters := 0 }).iters) ∧
    (timing_loop 0 5 (List.replicate 20 true ++ List.replicate 8 false)
      { io_acc := 255, count := 0, pulses := 0, iters := 0 }).count =
      (if 5 < (timing_loop 0 5 (List.replicate 20 true ++ List.replicate 8 false)
          { io_acc := 255, count := 0, pulses := 0, iters := 0 }).iters
        then (timing_loop 0 5 (List.replicate 20 true ++ List.replicate 8 false)
          { io_acc := 255, count := 0, pulses := 0, iters := 0 }).iters + 15
        else (timing_loop 0 5 (List.replicate 20 true ++ List.replicate 8 false)
          { io_acc := 255, count := 0, pulses := 0, iters := 0 }).iters) ∧
    (spec_timing_loop 0 5 (List.replicate 20 true ++ List.replicate 8 false)
        ({ io_acc := 255, count := 0, pulses := 0, iters := 0 }, false)).1 =
      timing_loop 0 5 (List.replicate 20 true ++ List.replicate 8 false)
        { io_acc := 255, count := 0, pulses := 0, iters := 0 }) :=
  ⟨by decide, timing_loop_single_pulse 0 5 255 _ (by decide)⟩

/-! ## C16: debounced zero-cross detection -/

theorem loop_after_cons (target : Nat) (z : Bool) (rest : List Bool) (s : LoopState)
    (j : Nat) :
    loop_after target (z :: rest) s (j + 1) = loop_after target rest (loop_body target z s) j := by
  induction j with
  | zero => simp [loop_after]
  | succ j ih =>
    rw [loop_after, List.getElem?_cons_succ, ih]
    conv_rhs => rw [loop_after]

/-- The timing loop runs the body until the first iteration count at which the
accumulator equals the pattern, or until the samples end. -/
theorem timing_loop_eq_after (io_tgt target : Nat) (zc : List Bool) :
    ∀ s : LoopState, ∃ k, k ≤ zc.length ∧
      timing_loop io_tgt target zc s = loop_after target zc s k ∧
      (timing_loop io_tgt target zc s).iters = s.iters + k ∧
      (∀ j, j < k → (loop_after target zc s j).io_acc ≠ io_tgt) ∧
      (k < zc.length → (loop_after target zc s k).io_acc = io_tgt) := by
  induction zc with
  | nil =>
    intro s
    exact ⟨0, le_refl _, rfl, rfl, fun j hj => absurd hj (by omega),
      fun h => absurd h (by simp)⟩
  | cons z rest ih =>
    intro s
    rw [timing_loop]
    by_cases hexit : s.io_acc = io_tgt
    · simp only [hexit, ne_eq, not_true_eq_false, if_false]
      exact ⟨0, Nat.zero_le _, rfl, rfl, fun j hj => absurd hj (by omega), fun _ => hexit⟩
    · simp only [hexit, ne_eq, not_false_eq_true, if_true]
      obtain ⟨k, hk, heq, hit, hbefore, hstop⟩ := ih (loop_body target z s)
      refine ⟨k + 1, by simp only [List.length_cons]; omega, ?_, ?_, ?_, ?_⟩
      · rw [heq, loop_after_cons]
      · rw [hit]
        show s.iters + 1 + k = s.iters + (k + 1)
        omega
      · intro j hj
        cases j with
        | zero => exact hexit
        | succ j =>
          rw [loop_after_cons]
          exact hbefore j (by omega)
      · intro h
        rw [loop_after_cons]
        exact hstop (by simp only [List.length_cons] at h; omega)

theorem history_bit_eq (q : Nat → Bool) (n k : Nat) (hk : k < n) :
    history_bit q n k = if q (n - 1 - k) = true then 1 else 0 := by
  unfold history_bit
  simp [hk]

/-- With at least 8 samples taken, the register is all ones (all zeros) iff the
last 8 samples are all 1 (all 0). -/
theorem button_acc_full (q : Nat → Bool) (n : Nat) (hn : 8 ≤ n) (e : Bool) :
    button_acc q n = (if e = true then 255 else 0) ↔ ∀ k, k < 8 → q (n - 1 - k) = e := by
  rw [button_acc_bits q n]
  have hle := history_bit_le q n
  have h0 := hle 0; have h1 := hle 1; have h2 := hle 2; have h3 := hle 3
  have h4 := hle 4; have h5 := hle 5; have h6 := hle 6; have h7 := hle 7
  have hv : ∀ k, k < 8 →
      (history_bit q n k = 1 ↔ q (n - 1 - k) = true) ∧
      (history_bit q n k = 0 ↔ q (n - 1 - k) = false) := by
    intro k hk
    rw [history_bit_eq q n k (by omega)]
    cases q (n - 1 - k) <;> simp
  cases e with
  | true =>
    simp only [if_true]
    constructor
    · intro h k hk
      apply (hv k hk).1.mp
      interval_cases k <;> omega
    · intro h
      have b0 := (hv 0 (by omega)).1.mpr (h 0 (by omega))
      have b1 := (hv 1 (by omega)).1.mpr (h 1 (by omega))
      have b2 := (hv 2 (by omega)).1.mpr (h 2 (by omega))
      have b3 := (hv 3 (by omega)).1.mpr (h 3 (by omega))
      have b4 := (hv 4 (by omega)).1.mpr (h 4 (by omega))
      have b5 := (hv 5 (by omega)).1.mpr (h 5 (by omega))
      have b6 := (hv 6 (by omega)).1.mpr (h 6 (by omega))
      have b7 := (hv 7 (by omega)).1.mpr (h 7 (by omega))
      omega
  | false =>
    simp only [Bool.false_eq_true, if_false]
    constructor
    · intro h k hk
      apply (hv k hk).2.mp
      interval_cases k <;> omega
    · intro h
      have b0 := (hv 0 (by omega)).2.mpr (h 0 (by omega))
      have b1 := (hv 1 (by omega)).2.mpr (h 1 (by omega))
      have b2 := (hv 2 (by omega)).2.mpr (h 2 (by omega))
      have b3 := (hv 3 (by omega)).2.mpr (h 3 (by omega))
      have b4 := (hv 4 (by omega)).2.mpr (h 4 (by omega))
      have b5 := (hv 5 (by omega)).2.mpr (h 5 (by omega))
      have b6 := (hv 6 (by omega)).2.mpr (h 6 (by omega))
      have b7 := (hv 7 (by omega)).2.mpr (h 7 (by omega))
      omega

theorem padded_samples_init (e : Bool) (zc : List Bool) :
    button_acc (padded_samples e zc) 8 = (if e = true then 0 else 255) := by
  cases e <;> simp [button_acc, button_pressed, padded_samples]

theorem loop_after_io_acc (target : Nat) (e : Bool) (zc : List Bool) (s : LoopState)
    (h0 : s.io_acc = button_acc (padded_samples e zc) 8) :
    ∀ j, j ≤ zc.length →
      (loop_after target zc s j).io_acc = button_acc (padded_samples e zc) (8 + j) := by
  intro j
  induction j with
  | zero => intro _; exact h0
  | succ j ih =>
    intro hj
    have hlt : j < zc.length := by omega
    have hget : zc[j]? = some zc[j] := List.getElem?_eq_getElem hlt
    have hq : padded_samples e zc (8 + j) = zc[j] := by
      unfold padded_samples
      rw [if_neg (by omega), show 8 + j - 8 = j by omega, hget]
      rfl
    rw [loop_after, hget]
    show (button_pressed (loop_after target zc s j).io_acc zc[j]).1 = _
    rw [ih (by omega), show 8 + (j + 1) = (8 + j) + 1 by omega, button_acc, hq]

/-- After `j` iterations the accumulator equals the expected pattern iff the 8
most recent samples all have the expected level. -/
theorem loop_after_debounced (target : Nat) (e : Bool) (zc : List Bool) (s : LoopState)
    (h0 : s.io_acc = (if e = true then 0 else 255)) (j : Nat) (hj : j ≤ zc.length) :
    (loop_after target zc s j).io_acc = (if e = true then 255 else 0) ↔ debounced e zc j := by
  rw [loop_after_io_acc target e zc s (by rw [h0, padded_samples_init]) j hj,
    button_acc_full _ _ (by omega) e]
  unfold debounced
  have hopt : ∀ o : Option Bool, o.getD (!e) = e ↔ o = some e := by
    intro o
    cases o with
    | none => cases e <;> simp
    | some b => cases e <;> cases b <;> simp
  constructor
  · intro h
    have h8 : 8 ≤ j := by
      by_contra hlt
      have := h j (by omega)
      unfold padded_samples at this
      rw [if_pos (by omega)] at this
      cases e <;> simp at this
    refine ⟨h8, fun i hi => ?_⟩
    have := h i hi
    unfold padded_samples at this
    rw [if_neg (by omega), show 8 + j - 1 - i - 8 = j - 1 - i by omega] at this
    exact (hopt _).mp this
  · rintro ⟨h8, h⟩ k hk
    unfold padded_samples
    rw [if_neg (by omega), show 8 + j - 1 - k - 8 = j - 1 - k by omega]
    exact (hopt _).mpr (h k hk)

/-- While the zero-cross input reads 1 and the counter is past the target, the
loop waiting for the pattern 0x00 only counts. -/
theorem timing_loop_high_past (target n : Nat) :
    ∀ (c p i : Nat) (rest : List Bool), target < c → c + n ≤ 65535 →
      timing_loop 0 target (List.replicate n true ++ rest)
          { io_acc := 255, count := c, pulses := p, iters := i }
        = timing_loop 0 target rest
          { io_acc := 255, count := c + n, pulses := p, iters := i + n } := by
  induction n with
  | zero => intro c p i rest _ _; simp
  | succ n ih =>
    intro c p i rest ht h
    have hc : c ≠ target := by omega
    have hc1 : (c + 1) % 65536 = c + 1 := Nat.mod_eq_of_lt (by omega)
    have hbody : loop_body target true { io_acc := 255, count := c, pulses := p, iters := i }
        = { io_acc := 255, count := c + 1, pulses := p, iters := i + 1 } := by
      simp [loop_body, hc, hc1]
    rw [List.replicate_succ, List.cons_append, timing_loop]
    simp only [ne_eq, show (255 : Nat) ≠ 0 by decide, not_false_eq_true, if_true, hbody]
    rw [ih (c + 1) p (i + 1) rest (by omega) (by omega)]
    congr 2 <;> omega

/-- C16, as stated, fails in its bound on the measured count: with
`which = 0x00`, `cycle_len = 1500` and level 0xffff (target 0), zero-cross
samples that read 1 for 65513 iterations and then 0 for 8 make the loop exit
after 65521 iterations with the 16-bit `count` wrapped to 0, below 8. -/
theorem cycle_loop_count_wraps :
    cycle_loop { which := 0, cycle_len := 1500 } 0xffff
        (List.replicate 65513 true ++ List.replicate 8 false)
      = { io_acc := 0, count := 0, pulses := 1, iters := 65521 } ∧
    ¬ (8 ≤ (cycle_loop { which := 0, cycle_len := 1500 } 0xffff
        (List.replicate 65513 true ++ List.replicate 8 false)).count) := by
  have hrun : cycle_loop { which := 0, cycle_len := 1500 } 0xffff
      (List.replicate 65513 true ++ List.replicate 8 false)
      = { io_acc := 0, count := 0, pulses := 1, iters := 65521 } := by
    have hsplit : List.replicate 65513 true ++ List.replicate 8 false
        = true :: (List.replicate 65512 true ++ List.replicate 8 false) := by
      rw [show (65513 : Nat) = 65512 + 1 by norm_num, List.replicate_succ,
        List.cons_append]
    have htarget : cycle_target 1500 0xffff = 0 := by decide
    have hfirst : loop_body 0 true { io_acc := 255, count := 0, pulses := 0, iters := 0 }
        = { io_acc := 255, count := 16, pulses := 1, iters := 1 } := by decide
    unfold cycle_loop
    simp only [htarget]
    rw [show ((0 : Nat) ^^^ 0xff) % 256 = 255 by decide, hsplit, timing_loop]
    simp only [ne_eq, show (255 : Nat) ≠ 0 by decide, not_false_eq_true, if_true, hfirst]
    rw [timing_loop_high_past 0 65512 16 1 1 _ (by norm_num) (by norm_num)]
    decide
  refine ⟨hrun, ?_⟩
  rw [hrun]
  decide

theorem cycle_which_next (st st1 : CycleState) (level : Nat) (zc : List Bool)
    (h : cycle st level zc = some st1) : st1.which = (st.which ^^^ 0xff) % 256 := by
  unfold cycle at h
  simp only at h
  split at h
  · simp only [Option.some.injEq] at h
    rw [← h]
  · exact absurd h (by simp)

theorem cycle_calls_which (calls : List (Nat × List Bool)) :
    ∀ st st1 : CycleState, (st.which = 0 ∨ st.which = 255) →
      cycle_calls st calls = some st1 →
      st1.which = if calls.length % 2 = 0 then st.which else 255 - st.which := by
  induction calls with
  | nil =>
    intro st st1 _ h
    simp only [cycle_calls, Option.some.injEq] at h
    simp [← h]
  | cons c cs ih =>
    intro st st1 hw h
    rw [cycle_calls] at h
    cases hc : cycle st c.1 c.2 with
    | none => simp [hc] at h
    | some st2 =>
      simp only [hc] at h
      have hnext := cycle_which_next st st2 c.1 c.2 hc
      have hw2 : st2.which = 255 - st.which := by
        rcases hw with h0 | h1
        · rw [hnext, h0]; decide
        · rw [hnext, h1]; decide
      have := ih st2 st1 (by omega) h
      rw [this, hw2, List.length_cons]
      rcases Nat.mod_two_eq_zero_or_one cs.length with he | ho
      · have : (cs.length + 1) % 2 = 1 := by omega
        simp [he, this]
      · have : (cs.length + 1) % 2 = 0 := by omega
        simp [ho, this]
        omega

/-- C16 (amended): for either phase (`which = 0x00`, expected level 0, or
`which = 0xff`, expected level 1) and every zero-cross sample sequence, the
timing loop of `cycle` stops exactly at the first iteration count at which the
8 most recent samples all have the expected level (it runs on while the
samples last and no such count is reached), so it never exits before 8
iterations; when it exits after `k` iterations with `k + 15 < 65536` the
measured count is at least 8; a returning call flips `which`, and from the
initial statics `which` is 0x00, 0xff, 0x00, ... on successive calls. -/
theorem cycle_loop_debounced (st : CycleState) (level : Nat) (zc : List Bool) (e : Bool)
    (hw : st.which = (if e = true then 0xff else 0x00)) :
    (cycle_loop st level zc).iters ≤ zc.length ∧
    ((cycle_loop st level zc).io_acc = st.which ↔
      debounced e zc (cycle_loop st level zc).iters) ∧
    (∀ j, j < (cycle_loop st level zc).iters → ¬ debounced e zc j) ∧
    ((cycle_loop st level zc).io_acc ≠ st.which →
      (cycle_loop st level zc).iters = zc.length) ∧
    ((cycle_loop st level zc).io_acc = st.which → 8 ≤ (cycle_loop st level zc).iters) ∧
    ((cycle_loop st level zc).io_acc = st.which →
      (cycle_loop st level zc).iters + 15 < 65536 → 8 ≤ (cycle_loop st level zc).count) ∧
    (∀ st1, cycle st level zc = some st1 →
      st1.which = (if e = true then 0x00 else 0xff)) ∧
    (∀ calls st1, cycle_calls cycle_init calls = some st1 →
      st1.which = if calls.length % 2 = 0 then 0x00 else 0xff) := by
  have hinit : (st.which ^^^ 0xff) % 256 = (if e = true then 0 else 255) := by
    rw [hw]; cases e <;> decide
  have htgt : st.which = (if e = true then 255 else 0) := hw
  obtain ⟨k, hk, heq, hit, hbefore, hstop⟩ :=
    timing_loop_eq_after st.which (cycle_target st.cycle_len level) zc
      { io_acc := (st.which ^^^ 0xff) % 256, count := 0, pulses := 0, iters := 0 }
  have hdeb : ∀ j, j ≤ zc.length →
      ((loop_after (cycle_target st.cycle_len level) zc
        { io_acc := (st.which ^^^ 0xff) % 256, count := 0, pulses := 0, iters := 0 } j).io_acc
        = st.which ↔ debounced e zc j) := by
    intro j hj
    have h := loop_after_debounced (cycle_target st.cycle_len level) e zc
      { io_acc := (st.which ^^^ 0xff) % 256, count := 0, pulses := 0, iters := 0 }
      hinit j hj
    rw [← htgt] at h
    exact h
  have hit0 : (timing_loop st.which (cycle_target st.cycle_len level) zc
      { io_acc := (st.which ^^^ 0xff) % 256, count := 0, pulses := 0, iters := 0 }).iters
      = k := by
    rw [hit]
    exact Nat.zero_add k
  have hiters : (cycle_loop st level zc).iters = k := hit0
  have hacc : (cycle_loop st level zc).io_acc =
      (loop_after (cycle_target st.cycle_len level) zc
        { io_acc := (st.which ^^^ 0xff) % 256, count := 0, pulses := 0, iters := 0 } k).io_acc := by
    unfold cycle_loop
    rw [heq]
  have hexit8 : (cycle_loop st level zc).io_acc = st.which → 8 ≤ k := by
    intro hx
    rw [hacc] at hx
    exact ((hdeb k hk).mp hx).1
  refine ⟨by rw [hiters]; exact hk, ?_, ?_, ?_, ?_, ?_, ?_, ?_⟩
  · rw [hiters, hacc]
    exact hdeb k hk
  · intro j hj
    rw [hiters] at hj
    intro hd
    exact hbefore j hj ((hdeb j (by omega)).mpr hd)
  · intro hne
    rw [hiters]
    by_contra hlen
    apply hne
    rw [hacc]
    exact hstop (by omega)
  · intro hx
    rw [hiters]
    exact hexit8 hx
  · intro hx hb
    have h8 := hexit8 hx
    rw [hiters] at hb
    have hb' : (timing_loop st.which (cycle_target st.cycle_len level) zc
        { io_acc := (st.which ^^^ 0xff) % 256, count := 0, pulses := 0, iters := 0 }).iters
        + 15 < 65536 := by
      rw [hit0]; omega
    obtain ⟨_, hinv⟩ := timing_loop_pulse_inv st.which (cycle_target st.cycle_len level) zc
      { io_acc := (st.which ^^^ 0xff) % 256, count := 0, pulses := 0, iters := 0 } false
      (Or.inl ⟨Nat.zero_le _, rfl, rfl, rfl⟩) hb'
    unfold cycle_loop
    rw [hit0] at hinv
    rcases hinv with ⟨_, _, h3⟩ | ⟨_, _, h3⟩ <;> omega
  · intro st1 h1
    rw [cycle_which_next st st1 level zc h1, hw]
    cases e <;> decide
  · intro calls st1 h1
    have := cycle_calls_which calls cycle_init st1 (Or.inl rfl) h1
    rw [this]
    have h0 : cycle_init.which = 0 := rfl
    rw [h0]

theorem cycle_loop_debounced_witness :
    cycle_init.which = (if false = true then 0xff else 0x00) ∧
    ((cycle_loop cycle_init 0 (List.replicate 20 true ++ List.replicate 8 false)).iters
      ≤ (List.replicate 20 true ++ List.replicate 8 false).length ∧
    ((cycle_loop cycle_init 0 (List.replicate 20 true ++ List.replicate 8 false)).io_acc
      = cycle_init.which ↔
      debounced false (List.replicate 20 true ++ List.replicate 8 false)
        (cycle_loop cycle_init 0 (List.replicate 20 true ++ List.replicate 8 false)).iters) ∧
    (∀ j, j < (cycle_loop cycle_init 0
        (List.replicate 20 true ++ List.replicate 8 false)).iters →
      ¬ debounced false (List.replicate 20 true ++ List.replicate 8 false) j) ∧
    ((cycle_loop cycle_init 0 (List.replicate 20 true ++ List.replicate 8 false)).io_acc
      ≠ cycle_init.which →
      (cycle_loop cycle_init 0 (List.replicate 20 true ++ List.replicate 8 false)).iters
        = (List.replicate 20 true ++ List.replicate 8 false).length) ∧
    ((cycle_loop cycle_init 0 (List.replicate 20 true ++ List.replicate 8 false)).io_acc
      = cycle_init.which →
      8 ≤ (cycle_loop cycle_init 0 (List.replicate 20 true ++ List.replicate 8 false)).iters) ∧
    ((cycle_loop cycle_init 0 (List.replicate 20 true ++ List.replicate 8 false)).io_acc
      = cycle_init.which →
      (cycle_loop cycle_init 0 (List.replicate 20 true ++ List.replicate 8 false)).iters + 15
        < 65536 →
      8 ≤ (cycle_loop cycle_init 0 (List.replicate 20 true ++ List.replicate 8 false)).count) ∧
    (∀ st1, cycle cycle_init 0 (List.replicate 20 true ++ List.replicate 8 false) = some st1 →
      st1.which = (if false = true then 0x00 else 0xff)) ∧
    (∀ calls st1, cycle_calls cycle_init calls = some st1 →
      st1.which = if calls.length % 2 = 0 then 0x00 else 0xff)) :=
  ⟨by decide, cycle_loop_debounced cycle_init 0 _ false (by decide)⟩

/-! ## C17: the on-ramp runs to completion -/

theorem LVL_RAMP_1 : LVL_RAMP 1 = 21474836 := by decide

theorem LVL_RAMP_2 : LVL_RAMP 2 = 10737418 := by decide

theorem LVL_MAX_val : LVL_MAX = 2147483647 := by decide

theorem LVL_SCALE_eq (x : Nat) : LVL_SCALE x = x / 65536 * 2 := by
  unfold LVL_SCALE
  rw [Nat.shiftLeft_eq, Nat.shiftRight_eq_div_pow]

theorem enter_on_le (level acc : Nat) (h : level ≤ 2147483647) :
    enter_on level acc = { mode := Mode.On, level := level, acc := acc } := by
  unfold enter_on
  rw [if_pos (by rw [LVL_MAX_val]; exact h)]

theorem enter_on_gt (level acc : Nat) (h : 2147483647 < level) :
    enter_on level acc = { mode := Mode.OnIdle, level := LVL_MAX, acc := acc } := by
  unfold enter_on
  rw [if_neg (by rw [LVL_MAX_val]; omega)]

theorem call_level_ramp (s : MainState) (hl : s.level ≤ LVL_MAX)
    (hm : s.mode = Mode.RampUp ∨ s.mode = Mode.RampDown ∨ s.mode = Mode.Off ∨
      s.mode = Mode.On) :
    call_level s = LVL_SCALE s.level := by
  have h := Nat.mod_eq_of_lt (LVL_SCALE_lt s.level hl)
  unfold call_level
  rcases hm with h1 | h1 | h1 | h1 <;> rw [h1] <;> exact h

theorem main_step_on (ramp_off : Nat → Nat) (s : MainState) (pin : Bool)
    (hm : s.mode = Mode.On) :
    main_step ramp_off s pin =
      if (button_pressed s.acc pin).2 then enter_off s.level (button_pressed s.acc pin).1
      else enter_on ((s.level + LVL_RAMP 1) % 4294967296) (button_pressed s.acc pin).1 := by
  unfold main_step
  rw [hm]

theorem main_step_onidle (ramp_off : Nat → Nat) (s : MainState) (pin : Bool)
    (hm : s.mode = Mode.OnIdle) :
    main_step ramp_off s pin =
      if (button_pressed s.acc pin).2 then enter_off s.level (button_pressed s.acc pin).1
      else { mode := Mode.OnIdle, level := s.level, acc := (button_pressed s.acc pin).1 } := by
  unfold main_step
  rw [hm]

/-- Without a detected press the on-ramp loop is at `level = L + j * LVL_RAMP(1)`
in its iteration `j`, as long as that level is at most `LVL_MAX`. -/
theorem main_from_on (ramp_off : Nat → Nat) (pins : Nat → Bool) (L acc : Nat)
    (hno : ∀ j, main_pressed_from ramp_off pins (enter_on L acc) j = false) (j : Nat)
    (hj : L + j * 21474836 ≤ 2147483647) :
    (main_from ramp_off pins (enter_on L acc) j).mode = Mode.On ∧
    (main_from ramp_off pins (enter_on L acc) j).level = L + j * 21474836 := by
  induction j with
  | zero =>
    show (enter_on L acc).mode = _ ∧ (enter_on L acc).level = _
    rw [enter_on_le L acc (by omega)]
    exact ⟨rfl, by simp⟩
  | succ j ih =>
    obtain ⟨hmode, hlev⟩ := ih (by omega)
    have hnp := hno j
    unfold main_pressed_from at hnp
    have hmod : (L + j * 21474836 + 21474836) % 4294967296
        = L + j * 21474836 + 21474836 := Nat.mod_eq_of_lt (by omega)
    rw [main_from, main_step_on ramp_off _ _ hmode, hnp, hlev, LVL_RAMP_1, hmod]
    simp only [Bool.false_eq_true, if_false]
    rw [enter_on_le _ _ (by omega)]
    exact ⟨rfl, by simp only; omega⟩

/-- Once the on-ramp level has passed `LVL_MAX` the sequencer idles at
`LVL_MAX` until a press. -/
theorem main_from_onidle (ramp_off : Nat → Nat) (pins : Nat → Bool) (L acc : Nat)
    (hL : L ≤ 2147483647)
    (hno : ∀ j, main_pressed_from ramp_off pins (enter_on L acc) j = false) (j : Nat)
    (hj : (2147483647 - L) / 21474836 + 1 ≤ j) :
    (main_from ramp_off pins (enter_on L acc) j).mode = Mode.OnIdle ∧
    (main_from ramp_off pins (enter_on L acc) j).level = LVL_MAX := by
  induction j with
  | zero => omega
  | succ j ih =>
    have hnp := hno j
    unfold main_pressed_from at hnp
    by_cases hlast : (2147483647 - L) / 21474836 + 1 ≤ j
    · obtain ⟨hmode, hlev⟩ := ih hlast
      rw [main_from, main_step_onidle ramp_off _ _ hmode, hnp, hlev]
      exact ⟨rfl, rfl⟩
    · have hjN : j = (2147483647 - L) / 21474836 := by omega
      obtain ⟨hmode, hlev⟩ := main_from_on ramp_off pins L acc hno j (by omega)
      have hmod : (L + j * 21474836 + 21474836) % 4294967296
          = L + j * 21474836 + 21474836 := Nat.mod_eq_of_lt (by omega)
      rw [main_from, main_step_on ramp_off _ _ hmode, hnp, hlev, LVL_RAMP_1, hmod]
      simp only [Bool.false_eq_true, if_false]
      rw [enter_on_gt _ _ (by omega)]
      exact ⟨rfl, rfl⟩

/-- C17: entered with a level `L ≤ LVL_MAX` and with no button press detected,
the on-ramp loop makes exactly `(LVL_MAX - L) / 21474836 + 1 ≤ 101` calls to
`cycle`, call `j` with `LVL_SCALE(L + j * 21474836)` for a level at most
`LVL_MAX`, the scaled levels are non-decreasing, the 32-bit level does not
wrap, and from then on the sequencer idles in the on state with
`level = LVL_MAX`, every call being `cycle(0xffff)`. -/
theorem onramp_completes (ramp_off : Nat → Nat) (pins : Nat → Bool) (L acc : Nat)
    (hL : L ≤ LVL_MAX)
    (hno : ∀ j, main_pressed_from ramp_off pins (enter_on L acc) j = false) :
    LVL_RAMP 1 = 21474836 ∧
    (LVL_MAX - L) / 21474836 + 1 ≤ 101 ∧
    (∀ j, j < (LVL_MAX - L) / 21474836 + 1 →
      (main_from ramp_off pins (enter_on L acc) j).mode = Mode.On ∧
      (main_from ramp_off pins (enter_on L acc) j).level = L + j * 21474836 ∧
      L + j * 21474836 ≤ LVL_MAX ∧
      L + j * 21474836 + 21474836 < 4294967296 ∧
      call_level (main_from ramp_off pins (enter_on L acc) j)
        = LVL_SCALE (L + j * 21474836)) ∧
    (∀ i j, i ≤ j → j < (LVL_MAX - L) / 21474836 + 1 →
      call_level (main_from ramp_off pins (enter_on L acc) i)
        ≤ call_level (main_from ramp_off pins (enter_on L acc) j)) ∧
    (∀ j, (LVL_MAX - L) / 21474836 + 1 ≤ j →
      (main_from ramp_off pins (enter_on L acc) j).mode = Mode.OnIdle ∧
      (main_from ramp_off pins (enter_on L acc) j).level = LVL_MAX ∧
      call_level (main_from ramp_off pins (enter_on L acc) j) = 0xffff) := by
  rw [LVL_MAX_val] at hL ⊢
  have hramp : ∀ j, j < (2147483647 - L) / 21474836 + 1 →
      (main_from ramp_off pins (enter_on L acc) j).mode = Mode.On ∧
      (main_from ramp_off pins (enter_on L acc) j).level = L + j * 21474836 ∧
      L + j * 21474836 ≤ 2147483647 ∧
      L + j * 21474836 + 21474836 < 4294967296 ∧
      call_level (main_from ramp_off pins (enter_on L acc) j)
        = LVL_SCALE (L + j * 21474836) := by
    intro j hj
    have hle : L + j * 21474836 ≤ 2147483647 := by omega
    obtain ⟨hmode, hlev⟩ := main_from_on ramp_off pins L acc hno j hle
    refine ⟨hmode, hlev, hle, by omega, ?_⟩
    rw [call_level_ramp _ (by rw [hlev, LVL_MAX_val]; exact hle)
      (Or.inr (Or.inr (Or.inr hmode))), hlev]
  refine ⟨LVL_RAMP_1, by omega, hramp, ?_, ?_⟩
  · intro i j hij hj
    rw [(hramp i (by omega)).2.2.2.2, (hramp j hj).2.2.2.2, LVL_SCALE_eq, LVL_SCALE_eq]
    have : (L + i * 21474836) / 65536 ≤ (L + j * 21474836) / 65536 :=
      Nat.div_le_div_right (by omega)
    omega
  · intro j hj
    obtain ⟨hmode, hlev⟩ := main_from_onidle ramp_off pins L acc hL hno j hj
    refine ⟨hmode, by rw [hlev, LVL_MAX_val], ?_⟩
    unfold call_level
    rw [hmode]

theorem button_pressed_false (acc : Nat) : (button_pressed acc false).2 = false := by
  unfold button_pressed
  simp only [Bool.false_eq_true, if_false, Nat.shiftLeft_eq, pow_one]
  rw [beq_eq_false_iff_ne]
  omega

theorem onramp_completes_witness :
    (0 : Nat) ≤ LVL_MAX ∧
    (∀ j, main_pressed_from (fun x => x) (fun _ => false) (enter_on 0 0) j = false) ∧
    (LVL_RAMP 1 = 21474836 ∧
    (LVL_MAX - 0) / 21474836 + 1 ≤ 101 ∧
    (∀ j, j < (LVL_MAX - 0) / 21474836 + 1 →
      (main_from (fun x => x) (fun _ => false) (enter_on 0 0) j).mode = Mode.On ∧
      (main_from (fun x => x) (fun _ => false) (enter_on 0 0) j).level = 0 + j * 21474836 ∧
      0 + j * 21474836 ≤ LVL_MAX ∧
      0 + j * 21474836 + 21474836 < 4294967296 ∧
      call_level (main_from (fun x => x) (fun _ => false) (enter_on 0 0) j)
        = LVL_SCALE (0 + j * 21474836)) ∧
    (∀ i j, i ≤ j → j < (LVL_MAX - 0) / 21474836 + 1 →
      call_level (main_from (fun x => x) (fun _ => false) (enter_on 0 0) i)
        ≤ call_level (main_from (fun x => x) (fun _ => false) (enter_on 0 0) j)) ∧
    (∀ j, (LVL_MAX - 0) / 21474836 + 1 ≤ j →
      (main_from (fun x => x) (fun _ => false) (enter_on 0 0) j).mode = Mode.OnIdle ∧
      (main_from (fun x => x) (fun _ => false) (enter_on 0 0) j).level = LVL_MAX ∧
      call_level (main_from (fun x => x) (fun _ => false) (enter_on 0 0) j) = 0xffff)) :=
  ⟨by decide, fun _ => button_pressed_false _,
    onramp_completes (fun x => x) (fun _ => false) 0 0 (by decide)
      (fun _ => button_pressed_false _)⟩

/-! ## C18: the ramp-down runs to completion -/

theorem main_step_rampdown (ramp_off : Nat → Nat) (s : MainState) (pin : Bool)
    (hm : s.mode = Mode.RampDown) :
    main_step ramp_off s pin =
      enter_rampdown ((s.level + 4294967296 - LVL_RAMP 2) % 4294967296) s.acc := by
  unfold main_step
  rw [hm]

theorem main_step_offidle (ramp_off : Nat → Nat) (s : MainState) (pin : Bool)
    (hm : s.mode = Mode.OffIdle) :
    main_step ramp_off s pin =
      if (button_pressed s.acc pin).2 then enter_on s.level (button_pressed s.acc pin).1
      else { mode := Mode.OffIdle, level := s.level, acc := (button_pressed s.acc pin).1 } := by
  unfold main_step
  rw [hm]

theorem enter_rampdown_le (level acc : Nat) (h : level ≤ 2147483647) :
    enter_rampdown level acc = { mode := Mode.RampDown, level := level, acc := acc } := by
  unfold enter_rampdown
  rw [if_pos (by rw [LVL_MAX_val]; exact h)]

theorem enter_rampdown_gt (level acc : Nat) (h : 2147483647 < level) :
    enter_rampdown level acc = { mode := Mode.OffIdle, level := 0, acc := acc } := by
  unfold enter_rampdown enter_off
  rw [if_neg (by rw [LVL_MAX_val]; omega), if_neg (by rw [LVL_MAX_val]; omega)]

/-- The ramp-down loop is at `level = LVL_MAX - j * LVL_RAMP(2)` in its
iteration `j ≤ 200`; the button history is not touched. -/
theorem main_from_rampdown (ramp_off : Nat → Nat) (pins : Nat → Bool) (acc j : Nat)
    (hj : j ≤ 200) :
    main_from ramp_off pins (enter_rampdown LVL_MAX acc) j =
      { mode := Mode.RampDown, level := 2147483647 - j * 10737418, acc := acc } := by
  induction j with
  | zero =>
    show enter_rampdown LVL_MAX acc = _
    rw [LVL_MAX_val, enter_rampdown_le _ _ (le_refl _)]
  | succ j ih =>
    have hmod : (2147483647 - j * 10737418 + 4294967296 - 10737418) % 4294967296
        = 2147483647 - (j + 1) * 10737418 := by omega
    rw [main_from, ih (by omega), main_step_rampdown ramp_off _ _ rfl, LVL_RAMP_2]
    simp only
    rw [hmod, enter_rampdown_le _ _ (by omega)]

/-- After the ramp-down the sequencer idles in the off state at level 0 until a
press is detected. -/
theorem main_from_offidle (ramp_off : Nat → Nat) (pins : Nat → Bool) (acc j : Nat)
    (hj : 201 ≤ j)
    (hno : ∀ i, 201 ≤ i → i < j →
      main_pressed_from ramp_off pins (enter_rampdown LVL_MAX acc) i = false) :
    (main_from ramp_off pins (enter_rampdown LVL_MAX acc) j).mode = Mode.OffIdle ∧
    (main_from ramp_off pins (enter_rampdown LVL_MAX acc) j).level = 0 := by
  induction j with
  | zero => omega
  | succ j ih =>
    by_cases hlast : 201 ≤ j
    · obtain ⟨hmode, hlev⟩ := ih hlast (fun i h1 h2 => hno i h1 (by omega))
      have hnp := hno j hlast (by omega)
      unfold main_pressed_from at hnp
      rw [main_from, main_step_offidle ramp_off _ _ hmode, hnp, hlev]
      exact ⟨rfl, rfl⟩
    · have hj200 : j = 200 := by omega
      subst hj200
      have hwrap : (2147483647 - 200 * 10737418 + 4294967296 - 10737418) % 4294967296
          = 4284229925 := by norm_num
      rw [main_from, main_from_rampdown ramp_off pins acc 200 (le_refl _),
        main_step_rampdown ramp_off _ _ rfl, LVL_RAMP_2]
      simp only
      rw [hwrap, enter_rampdown_gt _ _ (by norm_num)]
      exact ⟨rfl, rfl⟩

theorem main_state_add (ramp_off : Nat → Nat) (pins : Nat → Bool) (a j : Nat) :
    main_state ramp_off pins (a + j)
      = main_from ramp_off (fun i => pins (a + i)) (main_state ramp_off pins a) j := by
  induction j with
  | zero => rfl
  | succ j ih =>
    rw [← Nat.add_assoc, main_state, ih, main_from]

theorem main_step_steady (ramp_off : Nat → Nat) (s : MainState) (pin : Bool)
    (hm : s.mode = Mode.Steady) :
    main_step ramp_off s pin =
      if (button_pressed s.acc pin).2 then enter_off LVL_MAX (button_pressed s.acc pin).1
      else enter_steady ((s.level + LVL_RAMP 2700) % 4294967296) (button_pressed s.acc pin).1 := by
  unfold main_step
  rw [hm]

theorem LVL_RAMP_2700 : LVL_RAMP 2700 = 7953 := by decide

/-- Without a detected press the ramp-up loop ends after 180008 iterations and
the steady loop starts at level 0. -/
theorem main_state_steady_start (ramp_off : Nat → Nat) (pins : Nat → Bool)
    (hno : ∀ j, j < 180008 → main_pressed ramp_off pins j = false) :
    (main_state ramp_off pins 180008).mode = Mode.Steady ∧
    (main_state ramp_off pins 180008).level = 0 := by
  obtain ⟨hmode, hlev⟩ := main_state_rampup ramp_off pins 180007
    (by rw [LVL_RAMP_1800, LVL_MAX_val]; norm_num) (fun j hj => hno j (by omega))
  have hnp := hno 180007 (by omega)
  unfold main_pressed at hnp
  rw [LVL_RAMP_1800] at hlev
  rw [main_state, main_step_rampup ramp_off _ _ hmode, hnp, hlev, LVL_RAMP_1800]
  simp only [Bool.false_eq_true, if_false]
  unfold enter_rampup enter_steady
  rw [if_neg (by rw [LVL_MAX_val]; norm_num), if_pos (by rw [LVL_MAX_val]; norm_num)]
  exact ⟨rfl, rfl⟩

/-- Without a detected press the steady loop is at `level = j * LVL_RAMP(2700)`
in its iteration `j ≤ 270021`. -/
theorem main_state_steady (ramp_off : Nat → Nat) (pins : Nat → Bool)
    (hno : ∀ j, j < 450030 → main_pressed ramp_off pins j = false) (j : Nat)
    (hj : j ≤ 270021) :
    (main_state ramp_off pins (180008 + j)).mode = Mode.Steady ∧
    (main_state ramp_off pins (180008 + j)).level = j * 7953 := by
  induction j with
  | zero =>
    obtain ⟨h1, h2⟩ := main_state_steady_start ramp_off pins (fun j hj => hno j (by omega))
    exact ⟨h1, by rw [h2]⟩
  | succ j ih =>
    obtain ⟨hmode, hlev⟩ := ih (by omega)
    have hnp := hno (180008 + j) (by omega)
    unfold main_pressed at hnp
    have hmod : (j * 7953 + 7953) % 4294967296 = j * 7953 + 7953 :=
      Nat.mod_eq_of_lt (by omega)
    rw [← Nat.add_assoc, main_state, main_step_steady ramp_off _ _ hmode, hnp, hlev,
      LVL_RAMP_2700, hmod]
    simp only [Bool.false_eq_true, if_false]
    unfold enter_steady
    rw [if_pos (by rw [LVL_MAX_val]; omega)]
    exact ⟨rfl, by simp only; omega⟩

/-- Without a detected press during the ramp-up and steady loops, the ramp-down
loop is entered at loop iteration 450030 of `main`. -/
theorem main_state_rampdown_start (ramp_off : Nat → Nat) (pins : Nat → Bool)
    (hno : ∀ j, j < 450030 → main_pressed ramp_off pins j = false) :
    main_state ramp_off pins 450030 =
      enter_rampdown LVL_MAX
        (button_pressed (main_state ramp_off pins 450029).acc (pins 450029)).1 := by
  obtain ⟨hmode, hlev⟩ := main_state_steady ramp_off pins hno 270021 (le_refl _)
  have hnp := hno 450029 (by omega)
  unfold main_pressed at hnp
  have h1 : (180008 : Nat) + 270021 = 450029 := by norm_num
  rw [h1] at hmode hlev
  rw [show (450030 : Nat) = 450029 + 1 by norm_num, main_state,
    main_step_steady ramp_off _ _ hmode, hnp, hlev, LVL_RAMP_2700]
  simp only [Bool.false_eq_true, if_false]
  unfold enter_steady
  rw [if_neg (by rw [LVL_MAX_val]; norm_num)]

/-- The ramp-down loop from its entry at `level = LVL_MAX`: 201 iterations with
non-increasing scaled levels from 0xfffe to 0, then the wrap of the level, no
off-ramp iteration, and the idle off state at level 0 until a press. -/
theorem rampdown_from_entry (ramp_off : Nat → Nat) (pins : Nat → Bool) (acc : Nat) :
    LVL_RAMP 2 = 10737418 ∧
    (∀ j, j ≤ 200 →
      (main_from ramp_off pins (enter_rampdown LVL_MAX acc) j).mode = Mode.RampDown ∧
      (main_from ramp_off pins (enter_rampdown LVL_MAX acc) j).level
        = LVL_MAX - j * 10737418 ∧
      call_level (main_from ramp_off pins (enter_rampdown LVL_MAX acc) j)
        = LVL_SCALE (LVL_MAX - j * 10737418)) ∧
    call_level (main_from ramp_off pins (enter_rampdown LVL_MAX acc) 0) = 0xfffe ∧
    call_level (main_from ramp_off pins (enter_rampdown LVL_MAX acc) 200) = 0 ∧
    (∀ i j, i ≤ j → j ≤ 200 →
      call_level (main_from ramp_off pins (enter_rampdown LVL_MAX acc) j)
        ≤ call_level (main_from ramp_off pins (enter_rampdown LVL_MAX acc) i)) ∧
    LVL_MAX < (LVL_MAX - 200 * 10737418 + 4294967296 - LVL_RAMP 2) % 4294967296 ∧
    (∀ j, 201 ≤ j →
      (∀ i, 201 ≤ i → i < j →
        main_pressed_from ramp_off pins (enter_rampdown LVL_MAX acc) i = false) →
      (main_from ramp_off pins (enter_rampdown LVL_MAX acc) j).mode = Mode.OffIdle ∧
      (main_from ramp_off pins (enter_rampdown LVL_MAX acc) j).level = 0 ∧
      call_level (main_from ramp_off pins (enter_rampdown LVL_MAX acc) j) = 0) := by
  have hramp : ∀ j, j ≤ 200 →
      (main_from ramp_off pins (enter_rampdown LVL_MAX acc) j).mode = Mode.RampDown ∧
      (main_from ramp_off pins (enter_rampdown LVL_MAX acc) j).level
        = LVL_MAX - j * 10737418 ∧
      call_level (main_from ramp_off pins (enter_rampdown LVL_MAX acc) j)
        = LVL_SCALE (LVL_MAX - j * 10737418) := by
    intro j hj
    rw [main_from_rampdown ramp_off pins acc j hj, LVL_MAX_val]
    refine ⟨rfl, rfl, ?_⟩
    exact call_level_ramp _ (by rw [LVL_MAX_val]; show 2147483647 - j * 10737418 ≤ _; omega)
      (Or.inr (Or.inl rfl))
  refine ⟨LVL_RAMP_2, hramp, ?_, ?_, ?_, by decide, ?_⟩
  · rw [(hramp 0 (by omega)).2.2]; decide
  · rw [(hramp 200 (by omega)).2.2]; decide
  · intro i j hij hj
    rw [(hramp i (by omega)).2.2, (hramp j hj).2.2, LVL_SCALE_eq, LVL_SCALE_eq, LVL_MAX_val]
    have : (2147483647 - j * 10737418) / 65536 ≤ (2147483647 - i * 10737418) / 65536 :=
      Nat.div_le_div_right (by omega)
    omega
  · intro j hj hno
    obtain ⟨hmode, hlev⟩ := main_from_offidle ramp_off pins acc j hj hno
    refine ⟨hmode, hlev, ?_⟩
    unfold call_level
    rw [hmode]

/-- C18: with no button press detected during the ramp-up and steady loops
(loop iterations 0 to 450029 of `main`), the ramp-down loop is entered and
makes exactly 201 calls to `cycle`, call `j` with
`LVL_SCALE(LVL_MAX - j * 10737418)`; these scaled levels are non-increasing
from 0xfffe down to 0; the 32-bit level then wraps to a value above `LVL_MAX`,
the off-ramp loop runs zero iterations, and the sequencer idles in the off
state with `level = 0`, calling `cycle(0)`, until a button press. -/
theorem rampdown_completes (ramp_off : Nat → Nat) (pins : Nat → Bool)
    (hno : ∀ j, j < 450030 → main_pressed ramp_off pins j = false) :
    LVL_RAMP 2 = 10737418 ∧
    (∀ j, j ≤ 200 →
      (main_state ramp_off pins (450030 + j)).mode = Mode.RampDown ∧
      (main_state ramp_off pins (450030 + j)).level = LVL_MAX - j * 10737418 ∧
      call_level (main_state ramp_off pins (450030 + j))
        = LVL_SCALE (LVL_MAX - j * 10737418)) ∧
    call_level (main_state ramp_off pins 450030) = 0xfffe ∧
    call_level (main_state ramp_off pins (450030 + 200)) = 0 ∧
    (∀ i j, i ≤ j → j ≤ 200 →
      call_level (main_state ramp_off pins (450030 + j))
        ≤ call_level (main_state ramp_off pins (450030 + i))) ∧
    LVL_MAX < (LVL_MAX - 200 * 10737418 + 4294967296 - LVL_RAMP 2) % 4294967296 ∧
    (∀ j, 201 ≤ j →
      (∀ i, 201 ≤ i → i < j → main_pressed ramp_off pins (450030 + i) = false) →
      (main_state ramp_off pins (450030 + j)).mode = Mode.OffIdle ∧
      (main_state ramp_off pins (450030 + j)).level = 0 ∧
      call_level (main_state ramp_off pins (450030 + j)) = 0) := by
  have hstart := main_state_rampdown_start ramp_off pins hno
  have hshift : ∀ j, main_state ramp_off pins (450030 + j)
      = main_from ramp_off (fun i => pins (450030 + i))
          (enter_rampdown LVL_MAX
            (button_pressed (main_state ramp_off pins 450029).acc (pins 450029)).1) j := by
    intro j
    rw [main_state_add, hstart]
  obtain ⟨h1, h2, h3, h4, h5, h6, h7⟩ := rampdown_from_entry ramp_off
    (fun i => pins (450030 + i))
    (button_pressed (main_state ramp_off pins 450029).acc (pins 450029)).1
  refine ⟨h1, ?_, ?_, ?_, ?_, h6, ?_⟩
  · intro j hj
    rw [hshift j]
    exact h2 j hj
  · have := hshift 0
    rw [Nat.add_zero] at this
    rw [this]
    exact h3
  · rw [hshift 200]
    exact h4
  · intro i j hij hj
    rw [hshift i, hshift j]
    exact h5 i j hij hj
  · intro j hj hnp
    rw [hshift j]
    apply h7 j hj
    intro i hi1 hi2
    have := hnp i hi1 hi2
    unfold main_pressed at this
    unfold main_pressed_from
    rw [← hshift i]
    exact this

theorem rampdown_completes_witness :
    (∀ j, j < 450030 → main_pressed (fun x => x) (fun _ => false) j = false) ∧
    (LVL_RAMP 2 = 10737418 ∧
    (∀ j, j ≤ 200 →
      (main_state (fun x => x) (fun _ => false) (450030 + j)).mode = Mode.RampDown ∧
      (main_state (fun x => x) (fun _ => false) (450030 + j)).level
        = LVL_MAX - j * 10737418 ∧
      call_level (main_state (fun x => x) (fun _ => false) (450030 + j))
        = LVL_SCALE (LVL_MAX - j * 10737418)) ∧
    call_level (main_state (fun x => x) (fun _ => false) 450030) = 0xfffe ∧
    call_level (main_state (fun x => x) (fun _ => false) (450030 + 200)) = 0 ∧
    (∀ i j, i ≤ j → j ≤ 200 →
      call_level (main_state (fun x => x) (fun _ => false) (450030 + j))
        ≤ call_level (main_state (fun x => x) (fun _ => false) (450030 + i))) ∧
    LVL_MAX < (LVL_MAX - 200 * 10737418 + 4294967296 - LVL_RAMP 2) % 4294967296 ∧
    (∀ j, 201 ≤ j →
      (∀ i, 201 ≤ i → i < j →
        main_pressed (fun x => x) (fun _ => false) (450030 + i) = false) →
      (main_state (fun x => x) (fun _ => false) (450030 + j)).mode = Mode.OffIdle ∧
      (main_state (fun x => x) (fun _ => false) (450030 + j)).level = 0 ∧
      call_level (main_state (fun x => x) (fun _ => false) (450030 + j)) = 0)) :=
  ⟨fun _ _ => button_pressed_false _,
    rampdown_completes (fun x => x) (fun _ => false) (fun _ _ => button_pressed_false _)⟩

/-! ## C19: power-up ordering -/

/-- Below the calibration trigger the estimate stays below it when the
measured count is below it too. -/
theorem cycle_adjust_below (L c : Nat) (hL : L < 0xfffb) (hc : c < 0xfffb) :
    cycle_adjust L c < 0xfffb := by
  have hs : cycle_snap c L = L := by
    unfold cycle_snap
    rw [if_neg (by omega)]
  simp only [cycle_adjust, hs, cycle_inc, cycle_dec]
  split <;> split <;> omega

/-- Above the calibration trigger a count below it decrements the estimate. -/
theorem cycle_adjust_above (L c : Nat) (hc : c < 0xfffb) (hL : 0xfffb < L)
    (hL2 : L < 65536) : cycle_adjust L c = L - 1 := by
  have hs : cycle_snap c L = L := by
    unfold cycle_snap
    rw [if_neg (by omega)]
  have hngt : ¬ c > L := by omega
  have hlt : c < L := by omega
  have hmod : (L + 65535) % 65536 = L - 1 := by omega
  simp only [cycle_adjust, hs, cycle_inc, cycle_dec, hngt, hlt, if_true, if_false, hmod]

theorem cycle_len_seq_calibrated (counts : Nat → Nat) (hcounts : ∀ n, counts n < 0xfffb) :
    cycle_len_seq 0xffff counts 5 = counts 4 ∧
    ∀ n, 5 ≤ n → cycle_len_seq 0xffff counts n < 0xfffb := by
  have e1 : cycle_len_seq 0xffff counts 1 = 0xfffe := by
    rw [cycle_len_seq, cycle_len_seq,
      cycle_adjust_above _ _ (hcounts 0) (by decide) (by decide)]
  have e2 : cycle_len_seq 0xffff counts 2 = 0xfffd := by
    rw [cycle_len_seq, e1, cycle_adjust_above _ _ (hcounts 1) (by decide) (by decide)]
  have e3 : cycle_len_seq 0xffff counts 3 = 0xfffc := by
    rw [cycle_len_seq, e2, cycle_adjust_above _ _ (hcounts 2) (by decide) (by decide)]
  have e4 : cycle_len_seq 0xffff counts 4 = 0xfffb := by
    rw [cycle_len_seq, e3, cycle_adjust_above _ _ (hcounts 3) (by decide) (by decide)]
  have e5 : cycle_len_seq 0xffff counts 5 = counts 4 := by
    rw [cycle_len_seq, e4]
    simp [cycle_adjust, cycle_snap, cycle_inc, cycle_dec]
  refine ⟨e5, ?_⟩
  intro n hn
  induction n with
  | zero => omega
  | succ n ih =>
    by_cases h5 : 5 ≤ n
    · rw [cycle_len_seq]
      exact cycle_adjust_below _ _ (ih h5) (hcounts n)
    · have : n = 4 := by omega
      subst this
      rw [e5]
      exact hcounts 4

/-- C19: with no button press detected in ramp-up iterations 0 to 5, the first
8 calls of `cycle` (the 2 synchronisation calls and ramp-up iterations 0 to 5)
pass level 0 and call 8 (ramp-up iteration 6) passes the nonzero level 2;
hence, when every measured count is below 0xfffb, every call with a nonzero
level comes after the calibration shortcut of the 5th call (after which
`cycle_len` is the 5th measured count), with `cycle_len` below 0xfffb. -/
theorem power_up_order (ramp_off : Nat → Nat) (pins : Nat → Bool) (counts : Nat → Nat)
    (hno : ∀ j, j < 6 → main_pressed ramp_off pins j = false)
    (hcounts : ∀ n, counts n < 0xfffb) :
    (∀ n, n < 8 → main_call_level ramp_off pins n = 0) ∧
    main_call_level ramp_off pins 8 = 2 ∧
    cycle_len_seq cycle_init.cycle_len counts 5 = counts 4 ∧
    (∀ n, main_call_level ramp_off pins n ≠ 0 →
      8 ≤ n ∧ cycle_len_seq cycle_init.cycle_len counts n < 0xfffb) := by
  have hlevel : ∀ i, i ≤ 6 →
      call_level (main_state ramp_off pins i) = LVL_SCALE (i * 11930) := by
    intro i hi
    obtain ⟨hmode, hlev⟩ := main_state_rampup ramp_off pins i
      (by rw [LVL_RAMP_1800, LVL_MAX_val]; omega) (fun j hj => hno j (by omega))
    rw [LVL_RAMP_1800] at hlev
    rw [call_level_ramp _ (by rw [hlev, LVL_MAX_val]; omega) (Or.inl hmode), hlev]
  have hzero : ∀ n, n < 8 → main_call_level ramp_off pins n = 0 := by
    intro n hn
    unfold main_call_level
    split
    · rfl
    · rw [hlevel (n - 2) (by omega), LVL_SCALE_eq]
      have : (n - 2) * 11930 / 65536 = 0 := by omega
      rw [this]
  obtain ⟨hcal, hbelow⟩ := cycle_len_seq_calibrated counts hcounts
  have hinit : cycle_init.cycle_len = 0xffff := rfl
  refine ⟨hzero, ?_, by rw [hinit]; exact hcal, ?_⟩
  · unfold main_call_level
    rw [if_neg (by omega), hlevel 6 (le_refl _)]
    decide
  · intro n hn
    have h8 : 8 ≤ n := by
      by_contra hlt
      exact hn (hzero n (by omega))
    rw [hinit]
    exact ⟨h8, hbelow n (by omega)⟩

theorem power_up_order_witness :
    (∀ j, j < 6 → main_pressed (fun x => x) (fun _ => false) j = false) ∧
    (∀ n, (fun _ : Nat => (1500 : Nat)) n < 0xfffb) ∧
    ((∀ n, n < 8 → main_call_level (fun x => x) (fun _ => false) n = 0) ∧
    main_call_level (fun x => x) (fun _ => false) 8 = 2 ∧
    cycle_len_seq cycle_init.cycle_len (fun _ : Nat => (1500 : Nat)) 5 = (fun _ : Nat => (1500 : Nat)) 4 ∧
    (∀ n, main_call_level (fun x => x) (fun _ => false) n ≠ 0 →
      8 ≤ n ∧ cycle_len_seq cycle_init.cycle_len (fun _ : Nat => (1500 : Nat)) n < 0xfffb)) :=
  ⟨fun _ _ => button_pressed_false _, fun _ => (by decide : (1500 : Nat) < 0xfffb),
    power_up_order (fun x => x) (fun _ => false) (fun _ : Nat => (1500 : Nat))
      (fun _ _ => button_pressed_false _) (fun _ => (by decide : (1500 : Nat) < 0xfffb))⟩

end WakeUpLight
